import Mathlib

set_option linter.unusedVariables false

/- Shallow embedding of src/snapshot/deserializer.cc (the V8 snapshot
   deserializer).  The byte-level opcode constants (kNewObject, kBackref, the
   space masks, ...) live in serializer-common.h, which is not part of this
   repository snapshot; the serialized stream is therefore modelled as a list of
   already-decoded items whose constructors mirror, one for one, the case labels
   of Deserializer::ReadData.  Machine addresses are Nat (kNullAddress = 0),
   slots are kPointerSize = 8 bytes wide, and every memory write performed by
   the decoder is recorded in a write log.  CHECK and DCHECK assertions of the
   source are modelled as fatal: the corresponding function returns none. -/

namespace V8

/-- kPointerSize of the 64-bit target. -/
def kPointerSize : Nat := 8

/-- kTaggedSize equals kPointerSize here (STATIC_ASSERT in VisitRootPointers). -/
def kTaggedSize : Nat := 8

/-- HeapObject::kHeaderSize (one tagged map word). -/
def kHeaderSize : Nat := 8

/-- kObjectAlignmentBits: object sizes travel in the stream shifted by this. -/
def kObjectAlignmentBits : Nat := 3

/-- kPointerSizeLog2. -/
def kPointerSizeLog2 : Nat := 3

/-- Code::kDataStart, the offset of a code object's instruction area.  Layout
constant of the external Code class; the exact value is irrelevant to the
claims, it only has to be a tagged-size multiple larger than the header. -/
def kCodeDataStart : Nat := 48

/-- FILLER_TYPE instance type constant (external InstanceType enum). -/
def FILLER_TYPE : Nat := 0

/-- String::kEmptyHashField (external constant; hash-not-computed sentinel). -/
def kEmptyHashField : Nat := 3

/-- kNumberOfHotObjects (STATIC_ASSERT in ReadData says it is 8). -/
def kNumberOfHotObjects : Nat := 8

/-- Interpreter::InterruptBudget() (external constant). -/
def kInterruptBudget : Nat := 147456

/-- AllocationSpace: the fixed set of memory spaces addressable by the
deserializer's opcode space bits (the separate large-object variants of the
full runtime enum are not distinguished by this unit and fold into LO). -/
inductive Space
  | NEW
  | OLD
  | CODE
  | MAP
  | LO
  | RO
deriving DecidableEq

/-- Ghost view of a heap object's concrete kind.  In the source the kind is
determined by the map reference decoded into the object's first slot; map
decoding and the InstanceType machinery live outside this translation unit, so
the kind an object will have is carried as an operand of the modelled
new-object stream item.  Only the kinds the verified claims touch are
distinguished; the remaining kinds fold into `other`. -/
inductive ObjKind
  | str (content : List Nat) (internalized : Bool) (hashField : Nat)
      (thinActual : Option Nat)
  | map (instanceType : Nat)
  | code
  | bytecodeArray (interruptBudget : Nat) (osrLoopNestingLevel : Nat)
  | descriptorArray (rawMarked : Nat)
  | other
deriving DecidableEq

/-- A materialized heap object: its ghost kind and the space it lives in. -/
structure HeapObj where
  kind : ObjKind
  space : Space
deriving DecidableEq

/-- An off-heap address as written into a slot by the external-reference /
api-reference opcodes: either a table entry, or the address of
NoExternalReferencesCallback. -/
inductive ExtAddr
  | table (a : Nat)
  | noRefsSentinel
deriving DecidableEq

/-- Value written into memory by one decoder write. -/
inductive SlotVal
  | strongRef (a : Nat)
  | weakRef (a : Nat)
  | clearedWeak
  | ext (a : ExtAddr)
  | raw (bytes : List Nat)
deriving DecidableEq

/-- One recorded memory write: start address, byte length, value. -/
structure Write where
  addr : Nat
  len : Nat
  val : SlotVal
deriving DecidableEq

/-- The opcodes of Deserializer::ReadData, one constructor per case label.
Operands that the wire format packs into the opcode byte itself (the space
bits, the root-constant index, the hot-object index, the fixed raw-data word
count, the fixed repeat count) appear as constructor arguments. -/
inductive Opc
  | newObject (sp : Space) (kind : ObjKind)
  | backref (sp : Space)
  | rootArray
  | partialSnapshotCache
  | readOnlyObjectCache
  | attachedReference
  | externalReference
  | internalRef (encoded : Bool)
  | offHeapTarget
  | nop
  | nextChunk (sp : Space)
  | deferred
  | synchronize
  | variableRawData
  | variableRawCode
  | variableRepeat
  | offHeapBackingStore
  | apiReference
  | clearedWeakReference
  | weakPrefixOp
  | alignmentPrefixOp (k : Fin 3)
  | rootArrayConstant (id : Fin 32)
  | hotObject (i : Fin 8)
  | fixedRawData (w : Fin 32)
  | fixedRepeat (e : Fin 16)
deriving DecidableEq

/-- One item of the serialized stream: an opcode byte (source_.Get()), a varint
(source_.GetInt()), or a raw byte run (source_.CopyRaw). -/
inductive Item
  | op (o : Opc)
  | int (n : Nat)
  | raw (bs : List Nat)
deriving DecidableEq

/-- Modelled from the spec (section 4.2): per-space bump allocation state of the
external DefaultDeserializerAllocator.  A space is a sequence of reservation
chunks; each chunk records, per allocated object, its byte offset in the chunk
and its address.  `past` are completed chunks oldest first, `cur` is the chunk
currently bump-allocated from, `used` its bump offset. -/
structure SpaceAlloc where
  past : List (List (Nat × Nat))
  cur : List (Nat × Nat)
  used : Nat
deriving DecidableEq

def SpaceAlloc.push (sa : SpaceAlloc) (addr size : Nat) : SpaceAlloc :=
  { sa with cur := (sa.used, addr) :: sa.cur, used := sa.used + size }

def SpaceAlloc.next (sa : SpaceAlloc) : SpaceAlloc :=
  ⟨sa.past ++ [sa.cur], [], 0⟩

def assocFind {α : Type} : List (Nat × α) → Nat → Option α
  | [], _ => none
  | (k, v) :: r, a => if k = a then some v else assocFind r a

/-- Modelled from the spec (section 4.2): ResolveBackref for bump-allocated
spaces maps a chunk index and a byte offset to the object allocated there. -/
def SpaceAlloc.find (sa : SpaceAlloc) (ci off : Nat) : Option Nat :=
  ((sa.past ++ [sa.cur]).get? ci).bind fun ch => assocFind ch off

/-- Immutable per-run configuration: the flags and host-owned tables the
deserializer consults (Isolate state, command-line flags, embedder tables). -/
structure Cfg where
  userCode : Bool
  canRehash : Bool
  flagRehashSnapshot : Bool
  flagTraceMaps : Bool
  roots : List Nat
  partialSnapshotCache : List Nat
  readOnlyObjectCache : List Nat
  attachedObjects : List Nat
  externalRefs : List Nat
  apiRefs : Option (List Nat)
  deserializationComplete : Bool
  roPages : List Nat
deriving DecidableEq

/-- The mutable deserializer + allocator state threaded through decoding. -/
structure DState where
  source : List Item
  writes : List Write
  heap : List (Nat × HeapObj)
  nextAddr : Nat
  hotObjects : List Nat
  newAlloc : SpaceAlloc
  oldAlloc : SpaceAlloc
  codeAlloc : SpaceAlloc
  roAlloc : SpaceAlloc
  mapObjs : List Nat
  loObjs : List Nat
  nextRefWeak : Bool
  pendingAlignment : Option Nat
  barriers : List (Nat × Nat)
  offHeapStores : List (List Nat)
  stringTable : List (List Nat × Nat)
  newInternalizedStrings : List Nat
  newMaps : List Nat
  newCodeObjects : List Nat
  toRehash : List Nat
deriving DecidableEq

/-- source_.Get() on an opcode position. -/
def getOpcode (st : DState) : Option (Opc × DState) :=
  match st.source with
  | Item.op o :: r => some (o, {st with source := r})
  | _ => none

/-- source_.GetInt(). -/
def getInt (st : DState) : Option (Nat × DState) :=
  match st.source with
  | Item.int n :: r => some (n, {st with source := r})
  | _ => none

/-- source_.CopyRaw(dest, n): consumes a raw run of exactly n bytes. -/
def copyRaw (st : DState) (n : Nat) : Option (List Nat × DState) :=
  match st.source with
  | Item.raw bs :: r => if bs.length = n then some (bs, {st with source := r}) else none
  | _ => none

/-- Record one memory write. -/
def pushWrite (st : DState) (a n : Nat) (v : SlotVal) : DState :=
  {st with writes := ⟨a, n, v⟩ :: st.writes}

/-- Record one GenerationalBarrier call: (host object address, slot address). -/
def pushBarrier (st : DState) (host slotAddr : Nat) : DState :=
  {st with barriers := (host, slotAddr) :: st.barriers}

/-- Deserializer::UnalignedCopy: writes one slot; its DCHECK that the one-shot
weak flag is not set is modelled as fatal. -/
def unalignedCopy (st : DState) (a : Nat) (v : SlotVal) : Option DState :=
  if st.nextRefWeak then none else some (pushWrite st a kPointerSize v)

/-- Latest write whose start address is exactly `a`. -/
def readSlot : List Write → Nat → Option SlotVal
  | [], _ => none
  | w :: ws, a => if w.addr = a then some w.val else readSlot ws a

/-- HeapObject::FromAddress + field access: the object materialized at `a`. -/
def lookupHeap (st : DState) (a : Nat) : Option HeapObj :=
  assocFind st.heap a

def setKindA : List (Nat × HeapObj) → Nat → ObjKind → List (Nat × HeapObj)
  | [], _, _ => []
  | (k, h) :: r, a, kd =>
      if k = a then (k, {h with kind := kd}) :: r else (k, h) :: setKindA r a kd

/-- Overwrite the kind record of the object at address `a`. -/
def setHeapKind (st : DState) (a : Nat) (kd : ObjKind) : DState :=
  {st with heap := setKindA st.heap a kd}

/-- Heap::InYoungGeneration: the object lives in the transient (new) space. -/
def isYoung (st : DState) (a : Nat) : Bool :=
  match lookupHeap st a with
  | some h => h.space == Space.NEW
  | none => false

/-- Modelled from the spec (section 4.1 hot-object reference and the data
model): the HotObjectsList of serializer-common.h, absent from src/, is a fixed
capacity-8 FIFO ring of most-recently-materialized objects indexed 0 (newest)
upward; adding at capacity overwrites the oldest entry. -/
def hotAdd (o : Nat) (l : List Nat) : List Nat :=
  o :: l.take (kNumberOfHotObjects - 1)

/-- Modelled from the spec: HotObjectsList::Get by index, 0 = newest. -/
def hotGet (l : List Nat) (i : Nat) : Option Nat :=
  l.get? i

/-- NeedsRehashing: none of the modelled object kinds is a hash-dependent
container (no claim concerns the pending-rehash set membership). -/
def needsRehashing : ObjKind → Bool := fun _ => false

def kindIsCode : ObjKind → Bool
  | ObjKind.code => true
  | _ => false

/-- Lookup of the global string (interning) table by content.  Modelled from
the spec (section 4.4): the table maps string content to the canonical
instance; StringTable itself is external to this unit. -/
def stringLookup : List (List Nat × Nat) → List Nat → Option Nat
  | [], _ => none
  | (ct, a) :: r, k => if ct = k then some a else stringLookup r k

/-- The leading block of Deserializer::PostProcessNewObject: when rehashing is
on (FLAG_rehash_snapshot and can_rehash_) or user code is being deserialized,
strings get their cached hash field reset to the empty sentinel and
hash-dependent containers are queued for the rehash pass. -/
def ppHashClear (cfg : Cfg) (st : DState) (addr : Nat) : DState :=
  if (cfg.flagRehashSnapshot && cfg.canRehash) || cfg.userCode then
    match lookupHeap st addr with
    | some h =>
      match h.kind with
      | ObjKind.str ct intern _ th => setHeapKind st addr (ObjKind.str ct intern kEmptyHashField th)
      | k => if needsRehashing k then {st with toRehash := st.toRehash ++ [addr]} else st
    | none => st
  else st

/-- Deserializer::PostProcessNewObject.  The branches for the object kinds the
claims concern are translated from the source; ForwardStringIfExists (external
StringTable) follows the spec's words: on a content match the duplicate is made
to forward to the canonical instance, which is returned; otherwise the string
registers as the new canonical entry.  Kinds outside the model (external
strings, typed arrays, buffers, scripts, allocation sites) fold into `other`
and receive no fix-up here, since no claim concerns them. -/
def postProcessNewObject (cfg : Cfg) (st : DState) (addr : Nat) (sp : Space) :
    Nat × DState :=
  let st1 := ppHashClear cfg st addr
  match (if cfg.userCode then lookupHeap st1 addr else none) with
  | some ⟨ObjKind.str ct true hf th, _⟩ =>
    (match stringLookup st1.stringTable ct with
     | some canonical =>
         (canonical, setHeapKind st1 addr (ObjKind.str ct true hf (some canonical)))
     | none =>
         (addr, {st1 with stringTable := st1.stringTable ++ [(ct, addr)],
                          newInternalizedStrings := st1.newInternalizedStrings ++ [addr]}))
  | _ =>
    match lookupHeap st1 addr with
    | some h =>
      match h.kind with
      | ObjKind.code =>
          (addr, if cfg.userCode || sp == Space.LO
                 then {st1 with newCodeObjects := st1.newCodeObjects ++ [addr]}
                 else st1)
      | ObjKind.map t =>
          (addr, if cfg.flagTraceMaps then {st1 with newMaps := st1.newMaps ++ [addr]} else st1)
      | ObjKind.bytecodeArray _ _ =>
          (addr, setHeapKind st1 addr (ObjKind.bytecodeArray kInterruptBudget 0))
      | ObjKind.descriptorArray _ =>
          (addr, setHeapKind st1 addr (ObjKind.descriptorArray 0))
      | _ => (addr, st1)
    | none => (addr, st1)

/-- Registration of a fresh allocation in the allocator's per-space structures.
Modelled from the spec (section 4.2): bump-allocated spaces record chunk
offsets; the whole-object spaces (MAP, LO) record a sequential entry list. -/
def allocInSpace (st : DState) (sp : Space) (addr size : Nat) : DState :=
  match sp with
  | Space.NEW => {st with newAlloc := st.newAlloc.push addr size}
  | Space.OLD => {st with oldAlloc := st.oldAlloc.push addr size}
  | Space.CODE => {st with codeAlloc := st.codeAlloc.push addr size}
  | Space.RO => {st with roAlloc := st.roAlloc.push addr size}
  | Space.MAP => {st with mapObjs := st.mapObjs ++ [addr]}
  | Space.LO => {st with loObjs := st.loObjs ++ [addr]}

/-- Modelled from the spec (section 4.2): Allocate(space, size) draws a fresh
address, records the object (with its ghost kind) in the heap and in the
space's structures, and consumes the one-shot pending alignment. -/
def allocate (st : DState) (sp : Space) (size : Nat) (kind : ObjKind) :
    Nat × DState :=
  let addr := st.nextAddr
  let st1 := {st with nextAddr := addr + size,
                      pendingAlignment := none,
                      heap := (addr, ⟨kind, sp⟩) :: st.heap}
  (addr, allocInSpace st1 sp addr size)

/-- Allocator::GetObject for the chunked spaces (others never reach it). -/
def getObject (st : DState) (sp : Space) (ci off : Nat) : Option Nat :=
  match sp with
  | Space.NEW => st.newAlloc.find ci off
  | Space.OLD => st.oldAlloc.find ci off
  | Space.CODE => st.codeAlloc.find ci off
  | Space.RO => st.roAlloc.find ci off
  | _ => none

/-- Allocator::MoveToNextChunk.  Modelled from the spec: only chunked spaces
have reservation chunks to advance through. -/
def moveToNextChunk (st : DState) (sp : Space) : Option DState :=
  match sp with
  | Space.NEW => some {st with newAlloc := st.newAlloc.next}
  | Space.OLD => some {st with oldAlloc := st.oldAlloc.next}
  | Space.CODE => some {st with codeAlloc := st.codeAlloc.next}
  | Space.RO => some {st with roAlloc := st.roAlloc.next}
  | _ => none

/-- The switch of Deserializer::GetBackReferencedObject: per-space operand
reading and allocator resolution (one sequential index for the whole-object
spaces, chunk index plus offset for the chunked ones, the page walk for the
committed read-only space). -/
def backRefLookup (cfg : Cfg) (st : DState) (sp : Space) :
    Option (Nat × DState) :=
  match sp with
  | Space.LO =>
    match getInt st with
    | some (i, st1) => (st1.loObjs.get? i).map fun a => (a, st1)
    | none => none
  | Space.MAP =>
    match getInt st with
    | some (i, st1) => (st1.mapObjs.get? i).map fun a => (a, st1)
    | none => none
  | Space.RO =>
    match getInt st with
    | some (ci, st1) =>
      match getInt st1 with
      | some (off, st2) =>
        if cfg.deserializationComplete then
          (cfg.roPages.get? ci).map fun base => (base + off, st2)
        else (getObject st2 Space.RO ci off).map fun a => (a, st2)
      | none => none
    | none => none
  | s =>
    match getInt st with
    | some (ci, st1) =>
      match getInt st1 with
      | some (off, st2) => (getObject st2 s ci off).map fun a => (a, st2)
      | none => none
    | none => none

/-- Deserializer::GetBackReferencedObject: resolve per space, apply the
user-code ThinString (forwarded duplicate) substitution, and push the result
onto the hot-object ring. -/
def getBackReferencedObject (cfg : Cfg) (st : DState) (sp : Space) :
    Option (Nat × DState) :=
  match backRefLookup cfg st sp with
  | none => none
  | some (o0, st1) =>
    let o := if cfg.userCode then
               match lookupHeap st1 o0 with
               | some ⟨ObjKind.str _ _ _ (some act), _⟩ => act
               | _ => o0
             else o0
    some (o, {st1 with hotObjects := hotAdd o st1.hotObjects})

/-- NoExternalReferencesCallback: CHECK_WITH_MSG(false, ...) when invoked. -/
def noExternalReferencesCallback : Option Unit := none

/-- Deserializer::ReadExternalReferenceCase: index into the runtime-internal
external-reference table (its own bounds check is external to this unit and
modelled as fatal on overflow). -/
def readExternalReferenceCase (cfg : Cfg) (st : DState) : Option (Nat × DState) :=
  match getInt st with
  | some (id, st1) => (cfg.externalRefs.get? id).map fun a => (a, st1)
  | none => none

/-- Modelled from the spec (section 4.1): fixed repeat counts start at 2. -/
def decodeFixedRepeatCount (e : Fin 16) : Nat := e.val + 2

/-- Modelled from the spec (section 4.1): the variable form carries an explicit
count beyond the compact range. -/
def decodeVariableRepeatCount (n : Nat) : Nat := n + 18

/-- The `where` discriminator of the ReadDataCase template. -/
inductive RefWhere
  | newObject (sp : Space) (kind : ObjKind)
  | backref (sp : Space)
  | rootArray
  | partialSnapshotCache
  | readOnlyObjectCache
  | attachedReference
deriving DecidableEq

/-- Type of the recursive span decoder (ReadData) at some fuel. -/
abbrev RD : Type :=
  Cfg → DState → Nat → Nat → Space → Nat → Option (Bool × Nat × DState)

/-- Result of one iteration of the ReadData while loop. -/
inductive StepRes
  | cont (c2 : Nat) (st2 : DState)
  | halt (st2 : DState)
deriving DecidableEq

/-- The write_barrier_needed computation at the top of ReadData. -/
def writeBarrierNeeded (host : Nat) (sp : Space) : Bool :=
  host != 0 && sp != Space.NEW && sp != Space.CODE

/-- Deserializer::ReadObject() (the argumentless overload): decodes one full
reference into a fresh scratch slot (the C++ stack MaybeObject) via a one-slot
span with NEW_SPACE/kNullAddress, CHECKs the span filled, and reads the slot
back strongly (GetHeapObjectAssumeStrong; a weak or raw slot is fatal). -/
def readObject (rd : RD) (cfg : Cfg) (st : DState) : Option (Nat × DState) :=
  let scratch := st.nextAddr
  let st0 := {st with nextAddr := scratch + kPointerSize}
  match rd cfg st0 scratch (scratch + kPointerSize) Space.NEW 0 with
  | some (true, _, st1) =>
    match readSlot st1.writes scratch with
    | some (SlotVal.strongRef a) => some (a, st1)
    | _ => none
  | _ => none

/-- Deserializer::ReadObject(space): reads the size operand, allocates, decodes
the body span [addr, addr+size) with the object itself as host, post-processes
only when the body was not deferred, and applies the debug check that code
objects live exactly in the code space. -/
def readObjectIn (rd : RD) (cfg : Cfg) (st : DState) (sp : Space)
    (kind : ObjKind) : Option (Nat × DState) :=
  match getInt st with
  | none => none
  | some (szOp, st1) =>
    let size := szOp <<< kObjectAlignmentBits
    let (addr, st2) := allocate st1 sp size kind
    match rd cfg st2 addr (addr + size) sp addr with
    | none => none
    | some (b, _, st3) =>
      let res := if b then postProcessNewObject cfg st3 addr sp else (addr, st3)
      match lookupHeap res.2 res.1 with
      | some h => if kindIsCode h.kind = (sp == Space.CODE) then some res else none
      | none => none

/-- The write loop of ReadRepeatedObject: the same reference into consecutive
slots. -/
def writeRepeated : Nat → DState → Nat → Nat → Nat × DState
  | 0, st, c, _ => (c, st)
  | n + 1, st, c, obj =>
      writeRepeated n (pushWrite st c kPointerSize (SlotVal.strongRef obj)) (c + kPointerSize) obj

/-- Deserializer::ReadRepeatedObject: CHECK_LE(2, repeat_count), one nested
full-reference decode, the debug check that the repeated object is not young,
then repeat_count copies (UnalignedCopy's weak-flag assertion guarded once:
the flag does not change inside the loop). -/
def readRepeatedObject (rd : RD) (cfg : Cfg) (st : DState) (c count : Nat) :
    Option (Nat × DState) :=
  if count < 2 then none
  else
    match readObject rd cfg st with
    | none => none
    | some (obj, st1) =>
      if isYoung st1 obj then none
      else if st1.nextRefWeak then none
      else some (writeRepeated count st1 c obj)

/-- Deserializer::ReadCodeObjectBody: decodes the header span
[addr+kHeaderSize, addr+kCodeDataStart), CHECKs it filled.  The subsequent
RelocIterator walk visits the relocation records of the code object; the model
materializes code objects without relocation records, so the walk is empty. -/
def readCodeObjectBody (rd : RD) (cfg : Cfg) (st : DState) (sp : Space)
    (host : Nat) : Option DState :=
  match rd cfg st (host + kHeaderSize) (host + kCodeDataStart) sp host with
  | some (true, _, st1) => some st1
  | _ => none

/-- The resolution part of the ReadDataCase template: per `where`, read the
operands, resolve the heap object, and compute emit_write_barrier. -/
def resolveRef (rd : RD) (cfg : Cfg) (st : DState) (w : RefWhere) :
    Option (Nat × Bool × DState) :=
  match w with
  | RefWhere.newObject sp kind =>
      (readObjectIn rd cfg st sp kind).map fun p => (p.1, sp == Space.NEW, p.2)
  | RefWhere.backref sp =>
      (getBackReferencedObject cfg st sp).map fun p => (p.1, sp == Space.NEW, p.2)
  | RefWhere.rootArray =>
      match getInt st with
      | some (id, st1) =>
        match cfg.roots.get? id with
        | some root =>
            some (root, isYoung st1 root,
                  {st1 with hotObjects := hotAdd root st1.hotObjects})
        | none => none
      | none => none
  | RefWhere.readOnlyObjectCache =>
      match getInt st with
      | some (i, st1) =>
        match cfg.readOnlyObjectCache.get? i with
        | some o => if isYoung st1 o then none else some (o, false, st1)
        | none => none
      | none => none
  | RefWhere.partialSnapshotCache =>
      match getInt st with
      | some (i, st1) =>
        match cfg.partialSnapshotCache.get? i with
        | some o => some (o, isYoung st1 o, st1)
        | none => none
      | none => none
  | RefWhere.attachedReference =>
      match getInt st with
      | some (i, st1) =>
        match cfg.attachedObjects.get? i with
        | some o => some (o, isYoung st1 o, st1)
        | none => none
      | none => none

/-- Deserializer::ReadDataCase: consume and clear the one-shot weak flag,
resolve the reference, write it strongly or weakly into the current slot,
record a generational barrier when emit_write_barrier and write_barrier_needed
both hold, and advance one slot. -/
def readDataCase (rd : RD) (cfg : Cfg) (st : DState) (w : RefWhere)
    (c host : Nat) (wbn : Bool) : Option (Nat × DState) :=
  let wk := st.nextRefWeak
  let st0 := {st with nextRefWeak := false}
  match resolveRef rd cfg st0 w with
  | none => none
  | some (obj, emit, st1) =>
    let ref := if wk then SlotVal.weakRef obj else SlotVal.strongRef obj
    match unalignedCopy st1 c ref with
    | none => none
    | some st2 =>
      let st3 := if emit && wbn then pushBarrier st2 host c else st2
      some (c + kPointerSize, st3)

/-- One iteration of the while loop of Deserializer::ReadData: dispatch on the
opcode byte.  `rd` is the decoder itself at the remaining fuel, used for the
nested decodes.  Returns `halt` exactly on the kDeferred return-false path. -/
def readStep (rd : RD) (cfg : Cfg) (st : DState) (c l : Nat) (sp : Space)
    (host : Nat) : Option StepRes :=
  match getOpcode st with
  | none => none
  | some (data, st0) =>
    let wbn := writeBarrierNeeded host sp
    match data with
    | Opc.newObject s k =>
        (readDataCase rd cfg st0 (RefWhere.newObject s k) c host wbn).map
          fun p => StepRes.cont p.1 p.2
    | Opc.backref s =>
        (readDataCase rd cfg st0 (RefWhere.backref s) c host wbn).map
          fun p => StepRes.cont p.1 p.2
    | Opc.rootArray =>
        (readDataCase rd cfg st0 RefWhere.rootArray c host wbn).map
          fun p => StepRes.cont p.1 p.2
    | Opc.partialSnapshotCache =>
        (readDataCase rd cfg st0 RefWhere.partialSnapshotCache c host wbn).map
          fun p => StepRes.cont p.1 p.2
    | Opc.readOnlyObjectCache =>
        (readDataCase rd cfg st0 RefWhere.readOnlyObjectCache c host wbn).map
          fun p => StepRes.cont p.1 p.2
    | Opc.attachedReference =>
        (readDataCase rd cfg st0 RefWhere.attachedReference c host wbn).map
          fun p => StepRes.cont p.1 p.2
    | Opc.externalReference =>
        match readExternalReferenceCase cfg st0 with
        | some (a, st1) =>
            (unalignedCopy st1 c (SlotVal.ext (ExtAddr.table a))).map
              fun s => StepRes.cont (c + kPointerSize) s
        | none => none
    | Opc.internalRef _ => none
    | Opc.offHeapTarget => none
    | Opc.nop => some (StepRes.cont c st0)
    | Opc.nextChunk s2 =>
        (moveToNextChunk st0 s2).map fun s => StepRes.cont c s
    | Opc.deferred =>
        if c = host + kTaggedSize then
          let st1 :=
            match lookupHeap st0 host with
            | some h =>
              match h.kind with
              | ObjKind.map _ => setHeapKind st0 host (ObjKind.map FILLER_TYPE)
              | _ => st0
            | none => st0
          some (StepRes.halt st1)
        else none
    | Opc.synchronize => none
    | Opc.variableRawData =>
        match getInt st0 with
        | some (n, st1) =>
          match copyRaw st1 n with
          | some (bs, st2) => some (StepRes.cont (c + n) (pushWrite st2 c n (SlotVal.raw bs)))
          | none => none
        | none => none
    | Opc.variableRawCode =>
        if c = host + kTaggedSize then
          match getInt st0 with
          | some (n, st1) =>
            match copyRaw st1 n with
            | some (bs, st2) =>
              let st3 := pushWrite st2 (host + kCodeDataStart) n (SlotVal.raw bs)
              match readCodeObjectBody rd cfg st3 sp host with
              | some st4 =>
                let c2 := c + (kCodeDataStart - kHeaderSize + n)
                if c2 = l then some (StepRes.cont c2 st4) else none
              | none => none
            | none => none
          | none => none
        else none
    | Opc.variableRepeat =>
        match getInt st0 with
        | some (n, st1) =>
            (readRepeatedObject rd cfg st1 c (decodeVariableRepeatCount n)).map
              fun p => StepRes.cont p.1 p.2
        | none => none
    | Opc.offHeapBackingStore =>
        match getInt st0 with
        | some (n, st1) =>
          match copyRaw st1 n with
          | some (bs, st2) =>
              some (StepRes.cont c {st2 with offHeapStores := st2.offHeapStores ++ [bs]})
          | none => none
        | none => none
    | Opc.apiReference =>
        match getInt st0 with
        | some (id, st1) =>
          match cfg.apiRefs with
          | some tbl =>
            match tbl.get? id with
            | some a =>
                (unalignedCopy st1 c (SlotVal.ext (ExtAddr.table a))).map
                  fun s => StepRes.cont (c + kPointerSize) s
            | none => none
          | none =>
              (unalignedCopy st1 c (SlotVal.ext ExtAddr.noRefsSentinel)).map
                fun s => StepRes.cont (c + kPointerSize) s
        | none => none
    | Opc.clearedWeakReference =>
        (unalignedCopy st0 c SlotVal.clearedWeak).map
          fun s => StepRes.cont (c + kPointerSize) s
    | Opc.weakPrefixOp =>
        if st0.nextRefWeak then none
        else some (StepRes.cont c {st0 with nextRefWeak := true})
    | Opc.alignmentPrefixOp k =>
        some (StepRes.cont c {st0 with pendingAlignment := some (k.val + 1)})
    | Opc.rootArrayConstant id =>
        match cfg.roots.get? id.val with
        | some root =>
            if isYoung st0 root then none
            else
              (unalignedCopy st0 c (SlotVal.strongRef root)).map
                fun s => StepRes.cont (c + kPointerSize) s
        | none => none
    | Opc.hotObject idx =>
        match hotGet st0.hotObjects idx.val with
        | none => none
        | some hot =>
          let wk := st0.nextRefWeak
          let st1 := {st0 with nextRefWeak := false}
          let v := if wk then SlotVal.weakRef hot else SlotVal.strongRef hot
          match unalignedCopy st1 c v with
          | none => none
          | some st2 =>
            let st3 := if wbn && isYoung st2 hot then pushBarrier st2 host c else st2
            some (StepRes.cont (c + kPointerSize) st3)
    | Opc.fixedRawData w =>
        let n := (w.val + 1) * kPointerSize
        match copyRaw st0 n with
        | some (bs, st1) => some (StepRes.cont (c + n) (pushWrite st1 c n (SlotVal.raw bs)))
        | none => none
    | Opc.fixedRepeat e =>
        (readRepeatedObject rd cfg st0 c (decodeFixedRepeatCount e)).map
          fun p => StepRes.cont p.1 p.2

/-- Deserializer::ReadData(current, limit, source_space,
current_object_address), fuel-indexed: while current < limit take one opcode
step; the kDeferred path sets current to limit and returns false; on normal
exit CHECK_EQ(limit, current).  Fuel exhaustion is none (every real run
consumes at least one stream item per step, so any fuel past the stream length
is enough). -/
def readData : Nat → RD
  | 0, _, _, _, _, _, _ => none
  | Nat.succ fuel, cfg, st, c, l, sp, host =>
    if c < l then
      match readStep (readData fuel) cfg st c l sp host with
      | none => none
      | some (StepRes.halt st1) => some (false, l, st1)
      | some (StepRes.cont c1 st1) => readData fuel cfg st1 c1 l sp host
    else if c = l then some (true, c, st)
    else none

/-- Deserializer::VisitRootPointers: a root-level span decode with NEW_SPACE
and a null host address. -/
def visitRootPointers (fuel : Nat) (cfg : Cfg) (st : DState) (s e : Nat) :
    Option (Bool × Nat × DState) :=
  readData fuel cfg st s e Space.NEW 0

/-- Deserializer::DeserializeDeferredObjects: loop until kSynchronize; the
alignment prefixes update the allocator; every other opcode must be kNewObject
plus a space (debug-checked), naming a deferred object by back-reference; its
remaining body [addr+kPointerSize, addr+size) is decoded and CHECKed filled,
then the object is post-processed.  The debug assertion CanBeDeferred(object)
calls a predicate defined outside this unit and is not modelled. -/
def deserializeDeferredObjects : Nat → Cfg → DState → Option DState
  | 0, _, _ => none
  | Nat.succ fuel, cfg, st =>
    match getOpcode st with
    | none => none
    | some (o, st1) =>
      match o with
      | Opc.synchronize => some st1
      | Opc.alignmentPrefixOp k =>
          deserializeDeferredObjects fuel cfg {st1 with pendingAlignment := some (k.val + 1)}
      | Opc.newObject sp _ =>
        match getBackReferencedObject cfg st1 sp with
        | none => none
        | some (obj, st2) =>
          match getInt st2 with
          | none => none
          | some (sz, st3) =>
            let size := sz <<< kPointerSizeLog2
            match readData fuel cfg st3 (obj + kPointerSize) (obj + size) sp obj with
            | some (true, _, st4) =>
                deserializeDeferredObjects fuel cfg (postProcessNewObject cfg st4 obj sp).2
            | _ => none
      | _ => none

/-- Byte coverage of the write log: some recorded write spans address `a`. -/
def covers (ws : List Write) (a : Nat) : Bool :=
  ws.any fun w => decide (w.addr ≤ a) && decide (a < w.addr + w.len)

/-- A configuration with no host tables, all flags off. -/
def cfg0 : Cfg :=
  { userCode := false, canRehash := false, flagRehashSnapshot := false,
    flagTraceMaps := false, roots := [], partialSnapshotCache := [],
    readOnlyObjectCache := [], attachedObjects := [], externalRefs := [],
    apiRefs := none, deserializationComplete := false, roPages := [] }

/-- Fresh allocator state for one space. -/
def emptyAlloc : SpaceAlloc := ⟨[], [], 0⟩

/-- Initial deserializer state: empty stream and heap, allocation starting at
address 4096. -/
def st0 : DState :=
  { source := [], writes := [], heap := [], nextAddr := 4096, hotObjects := [],
    newAlloc := emptyAlloc, oldAlloc := emptyAlloc, codeAlloc := emptyAlloc,
    roAlloc := emptyAlloc, mapObjs := [], loObjs := [], nextRefWeak := false,
    pendingAlignment := none, barriers := [], offHeapStores := [],
    stringTable := [], newInternalizedStrings := [], newMaps := [],
    newCodeObjects := [], toRehash := [] }

/-- Eight zero bytes, the raw body payload of a minimal one-word object. -/
def raw8 : List Nat := [0, 0, 0, 0, 0, 0, 0, 0]

/-- Encoding of a minimal new object: one-word body filled by fixed raw data. -/
def minObjItems (sp : Space) (k : ObjKind) : List Item :=
  [Item.op (Opc.newObject sp k), Item.int 1, Item.op (Opc.fixedRawData ⟨0, by omega⟩),
   Item.raw raw8]

/-- Input state for the span-fill sample: one fixed raw-data opcode of one
word. -/
def stC1w : DState :=
  {st0 with source := [Item.op (Opc.fixedRawData ⟨0, by omega⟩), Item.raw raw8]}

/-- The state the span-fill sample ends in. -/
def stC1fin : DState := pushWrite {stC1w with source := []} 100 8 (SlotVal.raw raw8)

/-- State with a young object at 500 (registered in the new-space allocator)
and a code object at 600, the stream holding a back-reference to the young
object. -/
def stC2 : DState :=
  {st0 with heap := [(500, ⟨ObjKind.other, Space.NEW⟩), (600, ⟨ObjKind.code, Space.CODE⟩)],
            newAlloc := ⟨[], [(0, 500)], 8⟩,
            source := [Item.op (Opc.backref Space.NEW), Item.int 0, Item.int 0]}

/-- Deferred-pass sample: an allocated but body-incomplete object at 1000 of
size 16 in the old space; the deferred stream re-finds it by back-reference,
decodes its one-word remaining body, then synchronizes. -/
def stC3 : DState :=
  {st0 with heap := [(1000, ⟨ObjKind.other, Space.OLD⟩)],
            oldAlloc := ⟨[], [(0, 1000)], 16⟩,
            source := [Item.op (Opc.newObject Space.OLD ObjKind.other),
                       Item.int 0, Item.int 0, Item.int 2,
                       Item.op (Opc.fixedRawData ⟨0, by omega⟩), Item.raw raw8,
                       Item.op Opc.synchronize]}

/-- The weak-one-shot sample stream: [weak-prefix][new-object][new-object]. -/
def stC5 : DState :=
  {st0 with source := Item.op Opc.weakPrefixOp ::
    (minObjItems Space.OLD ObjKind.other ++ minObjItems Space.OLD ObjKind.other)}

/-- A user-code (non-foundational) configuration. -/
def cfgU : Cfg := {cfg0 with userCode := true}

/-- Ghost kind of an internalized two-byte string with content [7, 7]. -/
def strK : ObjKind := ObjKind.str [7, 7] true 5 none

/-- Canonicalization sample stream: two new internalized strings of equal
content, then a back-reference to the second (the duplicate). -/
def stC6 : DState :=
  {st0 with source := minObjItems Space.OLD strK ++ minObjItems Space.OLD strK ++
    [Item.op (Opc.backref Space.OLD), Item.int 0, Item.int 8]}

/-- Repeat sample stream: fixed repeat (encoded 3, count 5) over one nested
new object. -/
def stC7 : DState :=
  {st0 with source := Item.op (Opc.fixedRepeat ⟨3, by omega⟩) ::
    minObjItems Space.OLD ObjKind.other}

/-- A non-internalized string with a stale cached hash 42 at address 64. -/
def stC8 : DState :=
  {st0 with heap := [(64, ⟨ObjKind.str [1] false 42 none, Space.OLD⟩)]}

/-- Configuration with an embedder-supplied external-reference table. -/
def cfgApi : Cfg := {cfg0 with apiRefs := some [111, 222]}

/-- Stream holding an api-reference opcode with index 1. -/
def stC9 : DState :=
  {st0 with source := [Item.op Opc.apiReference, Item.int 1]}

/-- Stream holding an api-reference opcode with out-of-range index 2. -/
def stC9bad : DState :=
  {st0 with source := [Item.op Opc.apiReference, Item.int 2]}

/-- A map object at 900 whose body decode meets the deferred marker. -/
def stC10 : DState :=
  {st0 with heap := [(900, ⟨ObjKind.map 77, Space.MAP⟩)],
            source := [Item.op Opc.deferred]}

/-- Stream holding only a weak-prefix opcode. -/
def stW5 : DState := {st0 with source := [Item.op Opc.weakPrefixOp]}

/-- Back-reference operand stream over the stC2 heap (for a direct
GetBackReferencedObject call, which reads the two operand ints itself). -/
def stW4in : DState := {stC2 with source := [Item.int 0, Item.int 0]}

/-- The state GetBackReferencedObject leaves: operands consumed, the resolved
young object pushed onto the hot ring. -/
def stW4out : DState := {stC2 with source := [], hotObjects := [500]}

/-- stC3 after the deferred-loop opcode and the back-reference operands. -/
def stC3b : DState :=
  {stC3 with source := [Item.int 2, Item.op (Opc.fixedRawData ⟨0, by omega⟩),
                        Item.raw raw8, Item.op Opc.synchronize],
             hotObjects := [1000]}

/-- stC3b after the size operand. -/
def stC3c : DState :=
  {stC3b with source := [Item.op (Opc.fixedRawData ⟨0, by omega⟩), Item.raw raw8,
                         Item.op Opc.synchronize]}

/-- The state after the deferred object's remaining body is decoded. -/
def stC3d : DState :=
  pushWrite {stC3c with source := [Item.op Opc.synchronize]} 1008 8 (SlotVal.raw raw8)

/-- State with a canonical internalized string at 4096 and an equal-content
duplicate at 4104 already forwarded to it, plus the two back-reference
operands (old space, chunk 0, offset 8) naming the duplicate. -/
def stW6in : DState :=
  {st0 with source := [Item.int 0, Item.int 8],
            heap := [(4096, ⟨ObjKind.str [7, 7] true kEmptyHashField none, Space.OLD⟩),
                     (4104, ⟨ObjKind.str [7, 7] true kEmptyHashField (some 4096), Space.OLD⟩)],
            oldAlloc := ⟨[], [(8, 4104), (0, 4096)], 16⟩}

/-- Configuration with a one-entry read-only object cache holding address 42. -/
def cfgW2 : Cfg := {cfg0 with readOnlyObjectCache := [42]}

/-- State with an old-space object at 42 and a cache-index operand. -/
def stW2in : DState :=
  {st0 with source := [Item.int 0], heap := [(42, ⟨ObjKind.other, Space.OLD⟩)]}

/-- Configuration with rehashing enabled (flag and capability). -/
def cfgR : Cfg := {cfg0 with canRehash := true, flagRehashSnapshot := true}

/-- The state of one decoder step result. -/
def StepRes.state : StepRes → DState
  | StepRes.cont _ s => s
  | StepRes.halt s => s

/-- The write log only ever grows: st2 extends st's log. -/
def Grow (st st2 : DState) : Prop := ∃ pre, st2.writes = pre ++ st.writes

/-- Growth property of a span decoder. -/
def RDGrow (rd : RD) : Prop :=
  ∀ cfg st c l sp host b c2 st2,
    rd cfg st c l sp host = some (b, c2, st2) → Grow st st2

/-- Coverage property of a span decoder: a true return lands the cursor at the
limit having covered every byte of the span. -/
def RDCov (rd : RD) : Prop :=
  ∀ cfg st c l sp host c2 st2,
    rd cfg st c l sp host = some (true, c2, st2) →
      c2 = l ∧ ∀ a, c ≤ a → a < l → covers st2.writes a = true

end V8

namespace V8

theorem grow_refl (st : DState) : Grow st st := ⟨[], rfl⟩

theorem grow_of_eq {a b : DState} (h : b.writes = a.writes) : Grow a b :=
  ⟨[], by simp [h]⟩

theorem grow_trans {a b c : DState} (h1 : Grow a b) (h2 : Grow b c) : Grow a c := by
  obtain ⟨p, hp⟩ := h1
  obtain ⟨q, hq⟩ := h2
  exact ⟨q ++ p, by rw [hq, hp, List.append_assoc]⟩

theorem grow_pushWrite (st : DState) (a n : Nat) (v : SlotVal) :
    Grow st (pushWrite st a n v) := ⟨[⟨a, n, v⟩], rfl⟩

theorem pushBarrier_writes (st : DState) (h s : Nat) :
    (pushBarrier st h s).writes = st.writes := rfl

theorem setHeapKind_writes (st : DState) (a : Nat) (kd : ObjKind) :
    (setHeapKind st a kd).writes = st.writes := rfl

theorem covers_grow {a b : DState} (h : Grow a b) {x : Nat}
    (hc : covers a.writes x = true) : covers b.writes x = true := by
  obtain ⟨pre, hp⟩ := h
  rw [hp]
  unfold covers at hc ⊢
  rw [List.any_append, hc, Bool.or_true]

theorem covers_push_head {st : DState} {a n : Nat} {v : SlotVal} {x : Nat}
    (h1 : a ≤ x) (h2 : x < a + n) :
    covers (pushWrite st a n v).writes x = true := by
  unfold pushWrite covers
  simp [List.any_cons, h1, h2]

theorem getOpcode_writes {st : DState} {o : Opc} {st2 : DState}
    (h : getOpcode st = some (o, st2)) : st2.writes = st.writes := by
  unfold getOpcode at h
  split at h
  · simp only [Option.some.injEq, Prod.mk.injEq] at h
    obtain ⟨h1, h2⟩ := h
    rw [← h2]
  · cases h

theorem getInt_writes {st : DState} {n : Nat} {st2 : DState}
    (h : getInt st = some (n, st2)) : st2.writes = st.writes := by
  unfold getInt at h
  split at h
  · simp only [Option.some.injEq, Prod.mk.injEq] at h
    obtain ⟨h1, h2⟩ := h
    rw [← h2]
  · cases h

theorem copyRaw_writes {st : DState} {n : Nat} {bs : List Nat} {st2 : DState}
    (h : copyRaw st n = some (bs, st2)) : st2.writes = st.writes := by
  unfold copyRaw at h
  split at h
  · split at h
    · simp only [Option.some.injEq, Prod.mk.injEq] at h
      obtain ⟨h1, h2⟩ := h
      rw [← h2]
    · cases h
  · cases h

theorem allocate_writes (st : DState) (sp : Space) (size : Nat) (kind : ObjKind) :
    ((allocate st sp size kind).2).writes = st.writes := by
  cases sp <;> rfl

theorem ppHashClear_writes (cfg : Cfg) (st : DState) (addr : Nat) :
    (ppHashClear cfg st addr).writes = st.writes := by
  unfold ppHashClear
  repeat' split
  all_goals rfl

theorem postProcess_writes (cfg : Cfg) (st : DState) (addr : Nat) (sp : Space) :
    ((postProcessNewObject cfg st addr sp).2).writes = st.writes := by
  have hw := ppHashClear_writes cfg st addr
  unfold postProcessNewObject
  dsimp only
  repeat' split
  all_goals exact hw

theorem unalignedCopy_grow {st : DState} {a : Nat} {v : SlotVal} {st2 : DState}
    (h : unalignedCopy st a v = some st2) : Grow st st2 := by
  unfold unalignedCopy at h
  split at h
  · cases h
  · simp only [Option.some.injEq] at h
    rw [← h]
    exact grow_pushWrite st a kPointerSize v

theorem backRefLookup_writes {cfg : Cfg} {st : DState} {sp : Space} {o : Nat}
    {st2 : DState} (h : backRefLookup cfg st sp = some (o, st2)) :
    st2.writes = st.writes := by
  unfold backRefLookup at h
  cases sp <;> dsimp only at h <;> repeat' split at h
  all_goals (try cases h)
  all_goals
    simp only [Option.map_eq_some', Prod.mk.injEq] at h
  all_goals
    obtain ⟨a, ha, hao, hst⟩ := h
  all_goals subst hst
  all_goals solve_by_elim [getInt_writes, Eq.trans]

theorem getBackRef_writes {cfg : Cfg} {st : DState} {sp : Space}
    {p : Nat × DState} (h : getBackReferencedObject cfg st sp = some p) :
    p.2.writes = st.writes := by
  unfold getBackReferencedObject at h
  split at h
  · cases h
  · rename_i o0 st1 hraw
    dsimp only at h
    simp only [Option.some.injEq] at h
    subst h
    have hw := backRefLookup_writes hraw
    exact hw

theorem allocInSpace_writes (st : DState) (sp : Space) (a s : Nat) :
    (allocInSpace st sp a s).writes = st.writes := by
  cases sp <;> rfl

theorem readExternalReferenceCase_writes {cfg : Cfg} {st : DState} {a : Nat}
    {st2 : DState} (h : readExternalReferenceCase cfg st = some (a, st2)) :
    st2.writes = st.writes := by
  unfold readExternalReferenceCase at h
  split at h
  · rename_i id st1 hgi
    simp only [Option.map_eq_some', Prod.mk.injEq] at h
    obtain ⟨x, hx, hxo, hst⟩ := h
    subst hst
    exact getInt_writes hgi
  · cases h

theorem moveToNextChunk_writes {st : DState} {sp : Space} {st2 : DState}
    (h : moveToNextChunk st sp = some st2) : st2.writes = st.writes := by
  unfold moveToNextChunk at h
  cases sp <;> simp only [Option.some.injEq] at h <;> first | (subst h; rfl) | cases h

theorem readObject_grow {rd : RD} {cfg : Cfg} {st : DState} {p : Nat × DState}
    (hrd : RDGrow rd) (h : readObject rd cfg st = some p) : Grow st p.2 := by
  unfold readObject at h
  dsimp only at h
  split at h
  · rename_i c st1 heq
    split at h
    · rename_i a hslot
      simp only [Option.some.injEq] at h
      subst h
      refine grow_trans ?_ (hrd _ _ _ _ _ _ _ _ _ heq)
      exact grow_of_eq rfl
    · cases h
  · cases h

theorem readObjectIn_grow {rd : RD} {cfg : Cfg} {st : DState} {sp : Space}
    {kind : ObjKind} {p : Nat × DState} (hrd : RDGrow rd)
    (h : readObjectIn rd cfg st sp kind = some p) : Grow st p.2 := by
  unfold readObjectIn at h
  split at h
  · cases h
  · rename_i szOp st1 hgi
    dsimp only [allocate] at h
    split at h
    · cases h
    · rename_i b c stx heq
      have hw := getInt_writes hgi
      have h1 : Grow st stx := by
        refine grow_trans (grow_of_eq ?_) (hrd _ _ _ _ _ _ _ _ _ heq)
        rw [allocInSpace_writes]
        exact hw
      have h2 : Grow st
          (if b then postProcessNewObject cfg stx st1.nextAddr sp
           else (st1.nextAddr, stx)).2 := by
        cases b
        · exact h1
        · exact grow_trans h1 (grow_of_eq (postProcess_writes _ _ _ _))
      split at h
      · split at h
        · simp only [Option.some.injEq] at h
          rw [← h]
          exact h2
        · cases h
      · cases h

theorem writeRepeated_grow (n : Nat) (st : DState) (c obj : Nat) :
    Grow st (writeRepeated n st c obj).2 := by
  induction n generalizing st c with
  | zero => exact grow_refl st
  | succ n ih =>
      exact grow_trans (grow_pushWrite st c kPointerSize (SlotVal.strongRef obj)) (ih _ _)

theorem readRepeatedObject_grow {rd : RD} {cfg : Cfg} {st : DState}
    {c count : Nat} {p : Nat × DState} (hrd : RDGrow rd)
    (h : readRepeatedObject rd cfg st c count = some p) : Grow st p.2 := by
  unfold readRepeatedObject at h
  split at h
  · cases h
  · split at h
    · cases h
    · rename_i obj st1 hro
      split at h
      · cases h
      · split at h
        · cases h
        · simp only [Option.some.injEq] at h
          subst h
          exact grow_trans (readObject_grow hrd hro) (writeRepeated_grow count st1 c obj)

theorem readCodeObjectBody_grow {rd : RD} {cfg : Cfg} {st : DState} {sp : Space}
    {host : Nat} {st2 : DState} (hrd : RDGrow rd)
    (h : readCodeObjectBody rd cfg st sp host = some st2) : Grow st st2 := by
  unfold readCodeObjectBody at h
  split at h
  · rename_i c stx heq
    simp only [Option.some.injEq] at h
    subst h
    exact hrd _ _ _ _ _ _ _ _ _ heq
  · cases h

theorem resolveRef_grow {rd : RD} {cfg : Cfg} {st : DState} {w : RefWhere}
    {q : Nat × Bool × DState} (hrd : RDGrow rd)
    (h : resolveRef rd cfg st w = some q) : Grow st q.2.2 := by
  cases w <;> unfold resolveRef at h <;> try dsimp only at h
  case newObject sp kind =>
    simp only [Option.map_eq_some'] at h
    obtain ⟨p, hp, he⟩ := h
    subst he
    exact readObjectIn_grow hrd hp
  case backref sp =>
    simp only [Option.map_eq_some'] at h
    obtain ⟨p, hp, he⟩ := h
    subst he
    exact grow_of_eq (getBackRef_writes hp)
  all_goals (repeat' split at h)
  all_goals try exact Option.noConfusion h
  all_goals simp only [Option.some.injEq] at h
  all_goals subst h
  all_goals refine grow_of_eq ?_
  all_goals dsimp only
  all_goals solve_by_elim [getInt_writes, Eq.trans]

theorem readDataCase_grow {rd : RD} {cfg : Cfg} {st : DState} {w : RefWhere}
    {c host : Nat} {wbn : Bool} {p : Nat × DState} (hrd : RDGrow rd)
    (h : readDataCase rd cfg st w c host wbn = some p) : Grow st p.2 := by
  unfold readDataCase at h
  dsimp only at h
  split at h
  · cases h
  · rename_i obj emit st1 hres
    split at h
    · cases h
    · rename_i stc hcopy
      simp only [Option.some.injEq] at h
      subst h
      have g1 : Grow st {st with nextRefWeak := false} := grow_of_eq rfl
      have g2 := resolveRef_grow hrd hres
      have g3 := unalignedCopy_grow hcopy
      have g4 : Grow stc (if emit && wbn then pushBarrier stc host c else stc) := by
        split
        · exact grow_of_eq (pushBarrier_writes stc host c)
        · exact grow_refl stc
      exact grow_trans (grow_trans (grow_trans g1 g2) g3) g4

theorem readStep_grow {rd : RD} {cfg : Cfg} {st : DState} {c l : Nat}
    {sp : Space} {host : Nat} {res : StepRes} (hrd : RDGrow rd)
    (h : readStep rd cfg st c l sp host = some res) : Grow st res.state := by
  unfold readStep at h
  split at h
  · cases h
  · rename_i data st0 hop
    have g0 : Grow st st0 := grow_of_eq (getOpcode_writes hop)
    dsimp only at h
    cases data <;> dsimp only at h
    case newObject s k =>
      simp only [Option.map_eq_some'] at h
      obtain ⟨p, hp, he⟩ := h
      subst he
      exact grow_trans g0 (readDataCase_grow hrd hp)
    case backref s =>
      simp only [Option.map_eq_some'] at h
      obtain ⟨p, hp, he⟩ := h
      subst he
      exact grow_trans g0 (readDataCase_grow hrd hp)
    case rootArray =>
      simp only [Option.map_eq_some'] at h
      obtain ⟨p, hp, he⟩ := h
      subst he
      exact grow_trans g0 (readDataCase_grow hrd hp)
    case partialSnapshotCache =>
      simp only [Option.map_eq_some'] at h
      obtain ⟨p, hp, he⟩ := h
      subst he
      exact grow_trans g0 (readDataCase_grow hrd hp)
    case readOnlyObjectCache =>
      simp only [Option.map_eq_some'] at h
      obtain ⟨p, hp, he⟩ := h
      subst he
      exact grow_trans g0 (readDataCase_grow hrd hp)
    case attachedReference =>
      simp only [Option.map_eq_some'] at h
      obtain ⟨p, hp, he⟩ := h
      subst he
      exact grow_trans g0 (readDataCase_grow hrd hp)
    case externalReference =>
      split at h
      · rename_i a st1 hext
        simp only [Option.map_eq_some'] at h
        obtain ⟨s1, hs1, he⟩ := h
        subst he
        exact grow_trans g0
          (grow_trans (grow_of_eq (readExternalReferenceCase_writes hext))
            (unalignedCopy_grow hs1))
      · cases h
    case internalRef e => cases h
    case offHeapTarget => cases h
    case nop =>
      simp only [Option.some.injEq] at h
      subst h
      exact g0
    case nextChunk s2 =>
      simp only [Option.map_eq_some'] at h
      obtain ⟨s1, hs1, he⟩ := h
      subst he
      exact grow_trans g0 (grow_of_eq (moveToNextChunk_writes hs1))
    case deferred =>
      split at h
      · simp only [Option.some.injEq] at h
        subst h
        refine grow_trans g0 (grow_of_eq ?_)
        dsimp only
        repeat' split
        all_goals rfl
      · cases h
    case synchronize => cases h
    case variableRawData =>
      split at h
      · rename_i n st1 hgi
        split at h
        · rename_i bs st2 hcr
          simp only [Option.some.injEq] at h
          subst h
          have g1 : Grow st0 st1 := grow_of_eq (getInt_writes hgi)
          have g2 : Grow st1 st2 := grow_of_eq (copyRaw_writes hcr)
          exact grow_trans g0 (grow_trans g1
            (grow_trans g2 (grow_pushWrite st2 c n (SlotVal.raw bs))))
        · cases h
      · cases h
    case variableRawCode =>
      split at h
      · split at h
        · rename_i n st1 hgi
          split at h
          · rename_i bs st2 hcr
            split at h
            · rename_i st4 hbody
              split at h
              · simp only [Option.some.injEq] at h
                subst h
                have g1 : Grow st0 st1 := grow_of_eq (getInt_writes hgi)
                have g2 : Grow st1 st2 := grow_of_eq (copyRaw_writes hcr)
                have g3 := grow_pushWrite st2 (host + kCodeDataStart) n (SlotVal.raw bs)
                have g4 := readCodeObjectBody_grow hrd hbody
                exact grow_trans g0 (grow_trans g1 (grow_trans g2 (grow_trans g3 g4)))
              · cases h
            · cases h
          · cases h
        · cases h
      · cases h
    case variableRepeat =>
      split at h
      · rename_i n st1 hgi
        simp only [Option.map_eq_some'] at h
        obtain ⟨p, hp, he⟩ := h
        subst he
        exact grow_trans g0
          (grow_trans (grow_of_eq (getInt_writes hgi)) (readRepeatedObject_grow hrd hp))
      · cases h
    case offHeapBackingStore =>
      split at h
      · rename_i n st1 hgi
        split at h
        · rename_i bs st2 hcr
          simp only [Option.some.injEq] at h
          subst h
          have g1 : Grow st0 st1 := grow_of_eq (getInt_writes hgi)
          have g2 : Grow st1 st2 := grow_of_eq (copyRaw_writes hcr)
          exact grow_trans g0 (grow_trans g1 (grow_trans g2 (grow_of_eq rfl)))
        · cases h
      · cases h
    case apiReference =>
      split at h
      · rename_i id st1 hgi
        split at h
        · rename_i tbl htbl
          split at h
          · rename_i a hget
            simp only [Option.map_eq_some'] at h
            obtain ⟨s1, hs1, he⟩ := h
            subst he
            exact grow_trans g0
              (grow_trans (grow_of_eq (getInt_writes hgi)) (unalignedCopy_grow hs1))
          · cases h
        · rename_i htbl
          simp only [Option.map_eq_some'] at h
          obtain ⟨s1, hs1, he⟩ := h
          subst he
          exact grow_trans g0
            (grow_trans (grow_of_eq (getInt_writes hgi)) (unalignedCopy_grow hs1))
      · cases h
    case clearedWeakReference =>
      simp only [Option.map_eq_some'] at h
      obtain ⟨s1, hs1, he⟩ := h
      subst he
      exact grow_trans g0 (unalignedCopy_grow hs1)
    case weakPrefixOp =>
      split at h
      · cases h
      · simp only [Option.some.injEq] at h
        subst h
        exact grow_trans g0 (grow_of_eq rfl)
    case alignmentPrefixOp k =>
      simp only [Option.some.injEq] at h
      subst h
      exact grow_trans g0 (grow_of_eq rfl)
    case rootArrayConstant id =>
      split at h
      · rename_i root hget
        split at h
        · cases h
        · simp only [Option.map_eq_some'] at h
          obtain ⟨s1, hs1, he⟩ := h
          subst he
          exact grow_trans g0 (unalignedCopy_grow hs1)
      · cases h
    case hotObject idx =>
      split at h
      · cases h
      · rename_i hot hget
        split at h
        · cases h
        · rename_i st2 hcopy
          simp only [Option.some.injEq] at h
          subst h
          have gmid : Grow st0 {st0 with nextRefWeak := false} := grow_of_eq rfl
          have g1 : Grow st0 st2 := grow_trans gmid (unalignedCopy_grow hcopy)
          have g2 : Grow st2 (if writeBarrierNeeded host sp && isYoung st2 hot
              then pushBarrier st2 host c else st2) := by
            split
            · exact grow_of_eq (pushBarrier_writes st2 host c)
            · exact grow_refl st2
          exact grow_trans g0 (grow_trans g1 g2)
    case fixedRawData w =>
      split at h
      · rename_i bs st1 hcr
        simp only [Option.some.injEq] at h
        subst h
        have g1 : Grow st0 st1 := grow_of_eq (copyRaw_writes hcr)
        exact grow_trans g0 (grow_trans g1
          (grow_pushWrite st1 c ((w.val + 1) * kPointerSize) (SlotVal.raw bs)))
      · cases h
    case fixedRepeat e =>
      simp only [Option.map_eq_some'] at h
      obtain ⟨p, hp, he⟩ := h
      subst he
      exact grow_trans g0 (readRepeatedObject_grow hrd hp)

theorem readData_grow : ∀ fuel : Nat, RDGrow (readData fuel) := by
  intro fuel
  induction fuel with
  | zero => intro cfg st c l sp host b c2 st2 h; cases h
  | succ fuel ih =>
    intro cfg st c l sp host b c2 st2 h
    unfold readData at h
    split at h
    · split at h
      · cases h
      · rename_i st1 hstep
        simp only [Option.some.injEq, Prod.mk.injEq] at h
        obtain ⟨hb, hc, hst⟩ := h
        subst hst
        exact readStep_grow ih hstep
      · rename_i c1 st1 hstep
        exact grow_trans (readStep_grow ih hstep) (ih _ _ _ _ _ _ _ _ _ h)
    · split at h
      · simp only [Option.some.injEq, Prod.mk.injEq] at h
        obtain ⟨hb, hc, hst⟩ := h
        subst hst
        exact grow_refl st
      · cases h

theorem writeRepeated_fst (n : Nat) : ∀ (st : DState) (c obj : Nat),
    (writeRepeated n st c obj).1 = c + kPointerSize * n := by
  induction n with
  | zero => intro st c obj; simp [writeRepeated]
  | succ n ih =>
    intro st c obj
    rw [writeRepeated, ih]
    simp [kPointerSize]
    omega

theorem writeRepeated_cov (n : Nat) : ∀ (st : DState) (c obj a : Nat),
    c ≤ a → a < c + kPointerSize * n →
    covers (writeRepeated n st c obj).2.writes a = true := by
  induction n with
  | zero =>
    intro st c obj a h1 h2
    simp only [Nat.mul_zero, Nat.add_zero] at h2
    omega
  | succ n ih =>
    intro st c obj a h1 h2
    rw [writeRepeated]
    by_cases hc : a < c + kPointerSize
    · have hcov : covers (pushWrite st c kPointerSize (SlotVal.strongRef obj)).writes a = true :=
        covers_push_head h1 hc
      exact covers_grow (writeRepeated_grow n _ _ _) hcov
    · refine ih _ (c + kPointerSize) obj a (by omega) ?_
      have hk : kPointerSize = 8 := rfl
      rw [hk] at h2 ⊢
      omega

theorem pushWrite_writes (st : DState) (a n : Nat) (v : SlotVal) :
    (pushWrite st a n v).writes = ⟨a, n, v⟩ :: st.writes := rfl

theorem readSlot_cons_ne {w : Write} {ws : List Write} {a : Nat} (h : w.addr ≠ a) :
    readSlot (w :: ws) a = readSlot ws a := by
  simp only [readSlot]
  rw [if_neg h]

theorem readSlot_cons_eq {w : Write} {ws : List Write} :
    readSlot (w :: ws) w.addr = some w.val := by
  simp [readSlot]

theorem readSlot_writeRepeated_lower (n : Nat) : ∀ (st : DState) (c obj a : Nat),
    a < c → readSlot (writeRepeated n st c obj).2.writes a = readSlot st.writes a := by
  induction n with
  | zero => intro st c obj a ha; rfl
  | succ n ih =>
    intro st c obj a ha
    rw [writeRepeated]
    rw [ih _ (c + kPointerSize) obj a (by omega)]
    rw [pushWrite_writes]
    exact readSlot_cons_ne (show c ≠ a by omega)

theorem readSlot_writeRepeated (n : Nat) : ∀ (st : DState) (c obj i : Nat),
    i < n →
    readSlot (writeRepeated n st c obj).2.writes (c + kPointerSize * i) =
      some (SlotVal.strongRef obj) := by
  induction n with
  | zero => intro st c obj i hi; omega
  | succ n ih =>
    intro st c obj i hi
    rw [writeRepeated]
    cases i with
    | zero =>
      rw [Nat.mul_zero, Nat.add_zero]
      rw [readSlot_writeRepeated_lower n _ (c + kPointerSize) obj c (by simp [kPointerSize])]
      rw [pushWrite_writes]
      exact readSlot_cons_eq
    | succ i =>
      have heq : c + kPointerSize * (i + 1) = (c + kPointerSize) + kPointerSize * i := by
        have hk : kPointerSize = 8 := rfl
        rw [hk]
        omega
      rw [heq]
      exact ih _ (c + kPointerSize) obj i (by omega)

theorem readDataCase_cov {rd : RD} {cfg : Cfg} {st : DState} {w : RefWhere}
    {c host : Nat} {wbn : Bool} {p : Nat × DState}
    (h : readDataCase rd cfg st w c host wbn = some p) :
    p.1 = c + kPointerSize ∧
      ∀ a, c ≤ a → a < c + kPointerSize → covers p.2.writes a = true := by
  unfold readDataCase at h
  dsimp only at h
  split at h
  · cases h
  · rename_i obj emit st1 hres
    split at h
    · cases h
    · rename_i stc hcopy
      simp only [Option.some.injEq] at h
      subst h
      refine ⟨rfl, ?_⟩
      intro a ha1 ha2
      have hcov : covers stc.writes a = true := by
        unfold unalignedCopy at hcopy
        split at hcopy
        · cases hcopy
        · simp only [Option.some.injEq] at hcopy
          subst hcopy
          exact covers_push_head ha1 ha2
      dsimp only
      split
      · rw [pushBarrier_writes]
        exact hcov
      · exact hcov

theorem readRepeatedObject_cov {rd : RD} {cfg : Cfg} {st : DState}
    {c count : Nat} {p : Nat × DState}
    (h : readRepeatedObject rd cfg st c count = some p) :
    p.1 = c + kPointerSize * count ∧
      ∀ a, c ≤ a → a < c + kPointerSize * count → covers p.2.writes a = true := by
  unfold readRepeatedObject at h
  split at h
  · cases h
  · split at h
    · cases h
    · rename_i obj st1 hro
      split at h
      · cases h
      · split at h
        · cases h
        · simp only [Option.some.injEq] at h
          subst h
          exact ⟨writeRepeated_fst count st1 c obj,
            fun a h1 h2 => writeRepeated_cov count st1 c obj a h1 h2⟩

theorem unalignedCopy_cov {st : DState} {a : Nat} {v : SlotVal} {st2 : DState}
    (h : unalignedCopy st a v = some st2) {x : Nat} (h1 : a ≤ x)
    (h2 : x < a + kPointerSize) : covers st2.writes x = true := by
  unfold unalignedCopy at h
  split at h
  · cases h
  · simp only [Option.some.injEq] at h
    subst h
    exact covers_push_head h1 h2

theorem readStep_cov {rd : RD} {cfg : Cfg} {st : DState} {c l : Nat}
    {sp : Space} {host : Nat} {c2 : Nat} {st2 : DState}
    (hg : RDGrow rd) (hc : RDCov rd)
    (h : readStep rd cfg st c l sp host = some (StepRes.cont c2 st2)) :
    c ≤ c2 ∧ ∀ a, c ≤ a → a < c2 → covers st2.writes a = true := by
  have hk : kPointerSize = 8 := rfl
  unfold readStep at h
  split at h
  · cases h
  · rename_i data st0 hop
    dsimp only at h
    cases data <;> dsimp only at h
    case newObject s k =>
      simp only [Option.map_eq_some'] at h
      obtain ⟨p, hp, he⟩ := h
      simp only [StepRes.cont.injEq] at he
      obtain ⟨hc2, hst⟩ := he
      subst hc2; subst hst
      obtain ⟨hfst, hcov⟩ := readDataCase_cov hp
      rw [hfst]
      exact ⟨by omega, hcov⟩
    case backref s =>
      simp only [Option.map_eq_some'] at h
      obtain ⟨p, hp, he⟩ := h
      simp only [StepRes.cont.injEq] at he
      obtain ⟨hc2, hst⟩ := he
      subst hc2; subst hst
      obtain ⟨hfst, hcov⟩ := readDataCase_cov hp
      rw [hfst]
      exact ⟨by omega, hcov⟩
    case rootArray =>
      simp only [Option.map_eq_some'] at h
      obtain ⟨p, hp, he⟩ := h
      simp only [StepRes.cont.injEq] at he
      obtain ⟨hc2, hst⟩ := he
      subst hc2; subst hst
      obtain ⟨hfst, hcov⟩ := readDataCase_cov hp
      rw [hfst]
      exact ⟨by omega, hcov⟩
    case partialSnapshotCache =>
      simp only [Option.map_eq_some'] at h
      obtain ⟨p, hp, he⟩ := h
      simp only [StepRes.cont.injEq] at he
      obtain ⟨hc2, hst⟩ := he
      subst hc2; subst hst
      obtain ⟨hfst, hcov⟩ := readDataCase_cov hp
      rw [hfst]
      exact ⟨by omega, hcov⟩
    case readOnlyObjectCache =>
      simp only [Option.map_eq_some'] at h
      obtain ⟨p, hp, he⟩ := h
      simp only [StepRes.cont.injEq] at he
      obtain ⟨hc2, hst⟩ := he
      subst hc2; subst hst
      obtain ⟨hfst, hcov⟩ := readDataCase_cov hp
      rw [hfst]
      exact ⟨by omega, hcov⟩
    case attachedReference =>
      simp only [Option.map_eq_some'] at h
      obtain ⟨p, hp, he⟩ := h
      simp only [StepRes.cont.injEq] at he
      obtain ⟨hc2, hst⟩ := he
      subst hc2; subst hst
      obtain ⟨hfst, hcov⟩ := readDataCase_cov hp
      rw [hfst]
      exact ⟨by omega, hcov⟩
    case externalReference =>
      split at h
      · rename_i a st1 hext
        simp only [Option.map_eq_some'] at h
        obtain ⟨s1, hs1, he⟩ := h
        simp only [StepRes.cont.injEq] at he
        obtain ⟨hc2, hst⟩ := he
        subst hc2; subst hst
        exact ⟨by omega, fun a h1 h2 => unalignedCopy_cov hs1 h1 h2⟩
      · cases h
    case internalRef e => cases h
    case offHeapTarget => cases h
    case nop =>
      simp only [Option.some.injEq, StepRes.cont.injEq] at h
      obtain ⟨hc2, hst⟩ := h
      subst hc2; subst hst
      exact ⟨le_refl c, fun a h1 h2 => absurd h2 (by omega)⟩
    case nextChunk s2 =>
      simp only [Option.map_eq_some'] at h
      obtain ⟨s1, hs1, he⟩ := h
      simp only [StepRes.cont.injEq] at he
      obtain ⟨hc2, hst⟩ := he
      subst hc2; subst hst
      exact ⟨le_refl c, fun a h1 h2 => absurd h2 (by omega)⟩
    case deferred =>
      split at h
      · simp only [Option.some.injEq] at h
        cases h
      · cases h
    case synchronize => cases h
    case variableRawData =>
      split at h
      · rename_i n st1 hgi
        split at h
        · rename_i bs stx hcr
          simp only [Option.some.injEq, StepRes.cont.injEq] at h
          obtain ⟨hc2, hst⟩ := h
          subst hc2; subst hst
          exact ⟨by omega, fun a h1 h2 => covers_push_head h1 h2⟩
        · cases h
      · cases h
    case variableRawCode =>
      split at h
      · rename_i heqc
        split at h
        · rename_i n st1 hgi
          split at h
          · rename_i bs stx hcr
            split at h
            · rename_i st4 hbody
              split at h
              · rename_i heql
                simp only [Option.some.injEq, StepRes.cont.injEq] at h
                obtain ⟨hc2, hst⟩ := h
                subst hc2; subst hst
                have e1 : kCodeDataStart = 48 := rfl
                have e2 : kHeaderSize = 8 := rfl
                have e3 : kTaggedSize = 8 := rfl
                constructor
                · omega
                · intro a h1 h2
                  unfold readCodeObjectBody at hbody
                  split at hbody
                  · rename_i cx stb heq
                    simp only [Option.some.injEq] at hbody
                    subst hbody
                    obtain ⟨hcx, hcov⟩ := hc _ _ _ _ _ _ _ _ heq
                    by_cases hlt : a < host + kCodeDataStart
                    · exact hcov a (by omega) (by omega)
                    · have hrw : covers (pushWrite stx (host + kCodeDataStart) n
                          (SlotVal.raw bs)).writes a = true :=
                        covers_push_head (by omega) (by omega)
                      exact covers_grow (hg _ _ _ _ _ _ _ _ _ heq) hrw
                  · cases hbody
              · cases h
            · cases h
          · cases h
        · cases h
      · cases h
    case variableRepeat =>
      split at h
      · rename_i n st1 hgi
        simp only [Option.map_eq_some'] at h
        obtain ⟨p, hp, he⟩ := h
        simp only [StepRes.cont.injEq] at he
        obtain ⟨hc2, hst⟩ := he
        subst hc2; subst hst
        obtain ⟨hfst, hcov⟩ := readRepeatedObject_cov hp
        rw [hfst]
        exact ⟨by omega, hcov⟩
      · cases h
    case offHeapBackingStore =>
      split at h
      · rename_i n st1 hgi
        split at h
        · rename_i bs stx hcr
          simp only [Option.some.injEq, StepRes.cont.injEq] at h
          obtain ⟨hc2, hst⟩ := h
          subst hc2; subst hst
          exact ⟨le_refl c, fun a h1 h2 => absurd h2 (by omega)⟩
        · cases h
      · cases h
    case apiReference =>
      split at h
      · rename_i id st1 hgi
        split at h
        · rename_i tbl htbl
          split at h
          · rename_i a2 hget
            simp only [Option.map_eq_some'] at h
            obtain ⟨s1, hs1, he⟩ := h
            simp only [StepRes.cont.injEq] at he
            obtain ⟨hc2, hst⟩ := he
            subst hc2; subst hst
            exact ⟨by omega, fun a h1 h2 => unalignedCopy_cov hs1 h1 h2⟩
          · cases h
        · rename_i htbl
          simp only [Option.map_eq_some'] at h
          obtain ⟨s1, hs1, he⟩ := h
          simp only [StepRes.cont.injEq] at he
          obtain ⟨hc2, hst⟩ := he
          subst hc2; subst hst
          exact ⟨by omega, fun a h1 h2 => unalignedCopy_cov hs1 h1 h2⟩
      · cases h
    case clearedWeakReference =>
      simp only [Option.map_eq_some'] at h
      obtain ⟨s1, hs1, he⟩ := h
      simp only [StepRes.cont.injEq] at he
      obtain ⟨hc2, hst⟩ := he
      subst hc2; subst hst
      exact ⟨by omega, fun a h1 h2 => unalignedCopy_cov hs1 h1 h2⟩
    case weakPrefixOp =>
      split at h
      · cases h
      · simp only [Option.some.injEq, StepRes.cont.injEq] at h
        obtain ⟨hc2, hst⟩ := h
        subst hc2; subst hst
        exact ⟨le_refl c, fun a h1 h2 => absurd h2 (by omega)⟩
    case alignmentPrefixOp k =>
      simp only [Option.some.injEq, StepRes.cont.injEq] at h
      obtain ⟨hc2, hst⟩ := h
      subst hc2; subst hst
      exact ⟨le_refl c, fun a h1 h2 => absurd h2 (by omega)⟩
    case rootArrayConstant id =>
      split at h
      · rename_i root hget
        split at h
        · cases h
        · simp only [Option.map_eq_some'] at h
          obtain ⟨s1, hs1, he⟩ := h
          simp only [StepRes.cont.injEq] at he
          obtain ⟨hc2, hst⟩ := he
          subst hc2; subst hst
          exact ⟨by omega, fun a h1 h2 => unalignedCopy_cov hs1 h1 h2⟩
      · cases h
    case hotObject idx =>
      split at h
      · cases h
      · rename_i hot hget
        split at h
        · cases h
        · rename_i stc hcopy
          simp only [Option.some.injEq, StepRes.cont.injEq] at h
          obtain ⟨hc2, hst⟩ := h
          subst hc2; subst hst
          refine ⟨by omega, ?_⟩
          intro a h1 h2
          have hcov := unalignedCopy_cov hcopy h1 h2
          split
          · rw [pushBarrier_writes]
            exact hcov
          · exact hcov
    case fixedRawData w =>
      split at h
      · rename_i bs st1 hcr
        simp only [Option.some.injEq, StepRes.cont.injEq] at h
        obtain ⟨hc2, hst⟩ := h
        subst hc2; subst hst
        exact ⟨by omega, fun a h1 h2 => covers_push_head h1 h2⟩
      · cases h
    case fixedRepeat e =>
      simp only [Option.map_eq_some'] at h
      obtain ⟨p, hp, he⟩ := h
      simp only [StepRes.cont.injEq] at he
      obtain ⟨hc2, hst⟩ := he
      subst hc2; subst hst
      obtain ⟨hfst, hcov⟩ := readRepeatedObject_cov hp
      rw [hfst]
      exact ⟨by omega, hcov⟩

theorem readData_cov : ∀ fuel : Nat, RDCov (readData fuel) := by
  intro fuel
  induction fuel with
  | zero => intro cfg st c l sp host c2 st2 h; cases h
  | succ fuel ih =>
    intro cfg st c l sp host c2 st2 h
    unfold readData at h
    split at h
    · rename_i hcl
      split at h
      · cases h
      · rename_i st1 hstep
        simp only [Option.some.injEq, Prod.mk.injEq] at h
        obtain ⟨hb, hrest⟩ := h
        cases hb
      · rename_i c1 st1 hstep
        obtain ⟨hcs, hcovs⟩ := readStep_cov (readData_grow fuel) ih hstep
        obtain ⟨hc2l, hcov⟩ := ih _ _ _ _ _ _ _ _ h
        refine ⟨hc2l, ?_⟩
        intro a h1 h2
        by_cases hlt : a < c1
        · exact covers_grow (readData_grow fuel _ _ _ _ _ _ _ _ _ h) (hcovs a h1 hlt)
        · exact hcov a (by omega) h2
    · rename_i hcl
      split at h
      · rename_i hce
        simp only [Option.some.injEq, Prod.mk.injEq] at h
        obtain ⟨htriv, hc2, hst⟩ := h
        subst hst
        refine ⟨by omega, ?_⟩
        intro a h1 h2
        omega
      · cases h

theorem readStep_halt {rd : RD} {cfg : Cfg} {st : DState} {c l : Nat}
    {sp : Space} {host : Nat} {st2 : DState}
    (h : readStep rd cfg st c l sp host = some (StepRes.halt st2)) :
    (∃ r, st.source = Item.op Opc.deferred :: r) ∧ c = host + kTaggedSize := by
  unfold readStep at h
  split at h
  · cases h
  · rename_i data st0 hop
    dsimp only at h
    cases data <;> dsimp only at h
    case deferred =>
      split at h
      · rename_i heqc
        refine ⟨?_, heqc⟩
        unfold getOpcode at hop
        split at hop
        · rename_i o r hsrc
          simp only [Option.some.injEq, Prod.mk.injEq] at hop
          obtain ⟨ho, hst0⟩ := hop
          subst ho
          exact ⟨r, hsrc⟩
        · cases hop
      · cases h
    all_goals repeat' split at h
    all_goals
      first
      | cases h
      | (simp only [Option.some.injEq] at h; exact StepRes.noConfusion h)
      | (simp only [Option.map_eq_some'] at h
         obtain ⟨p, hp, he⟩ := h
         exact StepRes.noConfusion he)

theorem readData_false : ∀ (fuel : Nat) (cfg : Cfg) (st : DState)
    (c l : Nat) (sp : Space) (host : Nat) (c2 : Nat) (st2 : DState),
    readData fuel cfg st c l sp host = some (false, c2, st2) → c2 = l := by
  intro fuel
  induction fuel with
  | zero => intro cfg st c l sp host c2 st2 h; cases h
  | succ fuel ih =>
    intro cfg st c l sp host c2 st2 h
    unfold readData at h
    split at h
    · split at h
      · cases h
      · rename_i st1 hstep
        simp only [Option.some.injEq, Prod.mk.injEq] at h
        obtain ⟨htriv, hc2, hst⟩ := h
        omega
      · rename_i c1 st1 hstep
        exact ih _ _ _ _ _ _ _ _ h
    · split at h
      · simp only [Option.some.injEq, Prod.mk.injEq] at h
        obtain ⟨hb, hrest⟩ := h
        cases hb
      · cases h

theorem readData_false_source : ∀ (fuel : Nat) (cfg : Cfg) (st : DState)
    (c l : Nat) (sp : Space) (host : Nat) (c2 : Nat) (st2 : DState),
    readData fuel cfg st c l sp host = some (false, c2, st2) →
    ∃ fuel2 st1 c1 st3,
      readStep (readData fuel2) cfg st1 c1 l sp host = some (StepRes.halt st3) ∧
      (∃ r, st1.source = Item.op Opc.deferred :: r) ∧ c1 = host + kTaggedSize := by
  intro fuel
  induction fuel with
  | zero => intro cfg st c l sp host c2 st2 h; cases h
  | succ fuel ih =>
    intro cfg st c l sp host c2 st2 h
    unfold readData at h
    split at h
    · split at h
      · cases h
      · rename_i st1 hstep
        obtain ⟨hsrc, hc⟩ := readStep_halt hstep
        exact ⟨fuel, st, c, st1, hstep, hsrc, hc⟩
      · rename_i c1 st1 hstep
        exact ih _ _ _ _ _ _ _ _ h
    · split at h
      · simp only [Option.some.injEq, Prod.mk.injEq] at h
        obtain ⟨hb, hrest⟩ := h
        cases hb
      · cases h

/-- C1: the DecodeSpan contract of Deserializer::ReadData.  A true return
lands the write cursor exactly at the limit having filled (covered with
recorded writes) every byte of [start, limit); a false return also leaves the
cursor at the limit (the span is abandoned for the second pass); a decode step
halts with false only when the consumed opcode is the deferred marker with the
cursor exactly one slot past the destination object's header; and every false
return of ReadData stems from such a step. -/
theorem C1_decode_span_contract :
    ∀ (fuel : Nat) (cfg : Cfg) (st : DState) (c l : Nat) (sp : Space) (host : Nat),
      (∀ c2 st2, readData fuel cfg st c l sp host = some (true, c2, st2) →
         c2 = l ∧ ∀ a, c ≤ a → a < l → covers st2.writes a = true)
      ∧ (∀ c2 st2, readData fuel cfg st c l sp host = some (false, c2, st2) → c2 = l)
      ∧ (∀ st2, readStep (readData fuel) cfg st c l sp host = some (StepRes.halt st2) →
           (∃ r, st.source = Item.op Opc.deferred :: r) ∧ c = host + kTaggedSize)
      ∧ (∀ c2 st2, readData fuel cfg st c l sp host = some (false, c2, st2) →
           ∃ fuel2 st1 c1 st3,
             readStep (readData fuel2) cfg st1 c1 l sp host =
               some (StepRes.halt st3) ∧
             (∃ r, st1.source = Item.op Opc.deferred :: r) ∧
             c1 = host + kTaggedSize) := by
  intro fuel cfg st c l sp host
  refine ⟨?_, ?_, ?_, ?_⟩
  · intro c2 st2 h
    exact readData_cov fuel _ _ _ _ _ _ _ _ h
  · intro c2 st2 h
    exact readData_false fuel _ _ _ _ _ _ _ _ h
  · intro st2 h
    exact readStep_halt h
  · intro c2 st2 h
    exact readData_false_source fuel _ _ _ _ _ _ _ _ h

/-- Witness for C1: a concrete one-word raw-data span decode returns true with
the cursor at the limit and the span covered. -/
theorem C1_decode_span_contract_witness :
    covers stC1fin.writes 100 = true := by
  have h := (C1_decode_span_contract 2 cfg0 stC1w 100 108 Space.OLD 0).1 108 stC1fin rfl
  exact h.2 100 (le_refl 100) (by omega)

/-- C10: when the deferred marker is met (necessarily one slot past the host
object's header, this position is asserted) and the host object is a type
descriptor (Map), its instance-type field is overwritten with the FILLER
placeholder in the same step, before the decoder returns false with its cursor
forced to the limit; a deferred marker at any other cursor position is fatal. -/
theorem C10_deferred_map_filler :
    ∀ (fuel : Nat) (cfg : Cfg) (st : DState) (c l : Nat) (sp : Space)
      (host : Nat) (r : List Item) (t : Nat) (s0 : Space),
      st.source = Item.op Opc.deferred :: r →
      (c = host + kTaggedSize →
        lookupHeap st host = some ⟨ObjKind.map t, s0⟩ →
        c < l →
        readStep (readData fuel) cfg st c l sp host =
          some (StepRes.halt
            (setHeapKind {st with source := r} host (ObjKind.map FILLER_TYPE)))
        ∧ readData (fuel + 1) cfg st c l sp host =
            some (false, l,
              setHeapKind {st with source := r} host (ObjKind.map FILLER_TYPE)))
      ∧ (c ≠ host + kTaggedSize →
          readStep (readData fuel) cfg st c l sp host = none) := by
  intro fuel cfg st c l sp host r t s0 hsrc
  constructor
  · intro hc hmap hcl
    have hstep : readStep (readData fuel) cfg st c l sp host =
        some (StepRes.halt
          (setHeapKind {st with source := r} host (ObjKind.map FILLER_TYPE))) := by
      unfold readStep getOpcode
      rw [hsrc]
      dsimp only
      rw [if_pos hc]
      have hlook : lookupHeap {st with source := r} host = some ⟨ObjKind.map t, s0⟩ := hmap
      rw [hlook]
    refine ⟨hstep, ?_⟩
    unfold readData
    rw [if_pos hcl, hstep]
  · intro hc
    unfold readStep getOpcode
    rw [hsrc]
    dsimp only
    rw [if_neg hc]

/-- Witness for C10: the concrete deferred-map scenario: step halts, the map's
instance type becomes the filler placeholder, and the decode returns false. -/
theorem C10_deferred_map_filler_witness :
    readData 2 cfg0 stC10 908 940 Space.MAP 900 =
      some (false, 940,
        setHeapKind {stC10 with source := []} 900 (ObjKind.map FILLER_TYPE)) := by
  have h := (C10_deferred_map_filler 1 cfg0 stC10 908 940 Space.MAP 900 [] 77
    Space.MAP rfl).1 rfl rfl (by omega)
  exact h.2

/-- C9: the api-reference opcode.  With an embedder-supplied external-reference
table, an in-range index resolves through the table and decoding advances one
slot; an index at or beyond the registered count is fatal (the bounds
assertion).  With no table supplied (embedder declined callbacks), the written
address is the NoExternalReferencesCallback sentinel, which aborts if ever
invoked, and decoding itself continues. -/
theorem C9_api_reference :
    ∀ (rd : RD) (cfg : Cfg) (st : DState) (c l : Nat) (sp : Space) (host : Nat)
      (id : Nat) (r : List Item),
      st.source = Item.op Opc.apiReference :: Item.int id :: r →
      st.nextRefWeak = false →
      (∀ tbl, cfg.apiRefs = some tbl →
        (∀ a, tbl.get? id = some a →
          readStep rd cfg st c l sp host =
            some (StepRes.cont (c + kPointerSize)
              (pushWrite {st with source := r} c kPointerSize
                (SlotVal.ext (ExtAddr.table a)))))
        ∧ (tbl.length ≤ id → readStep rd cfg st c l sp host = none))
      ∧ (cfg.apiRefs = none →
          readStep rd cfg st c l sp host =
            some (StepRes.cont (c + kPointerSize)
              (pushWrite {st with source := r} c kPointerSize
                (SlotVal.ext ExtAddr.noRefsSentinel))))
      ∧ noExternalReferencesCallback = none := by
  intro rd cfg st c l sp host id r hsrc hwk
  refine ⟨?_, ?_, rfl⟩
  · intro tbl htbl
    constructor
    · intro a hget
      unfold readStep getOpcode
      rw [hsrc]
      try dsimp only
      unfold getInt
      try dsimp only
      rw [htbl]
      try dsimp only
      rw [hget]
      try dsimp only
      unfold unalignedCopy
      try dsimp only
      rw [hwk]
      try dsimp only
      rfl
    · intro hlen
      unfold readStep getOpcode
      rw [hsrc]
      try dsimp only
      unfold getInt
      try dsimp only
      rw [htbl]
      try dsimp only
      rw [List.get?_eq_none.mpr hlen]
  · intro htbl
    unfold readStep getOpcode
    rw [hsrc]
    try dsimp only
    unfold getInt
    try dsimp only
    rw [htbl]
    try dsimp only
    unfold unalignedCopy
    try dsimp only
    rw [hwk]
    try dsimp only
    rfl

/-- Witness for C9: the concrete table [111, 222] with index 1 resolves 222;
index 2 is fatal; and with no table the sentinel is written. -/
theorem C9_api_reference_witness :
    readStep (readData 1) cfgApi stC9 100 108 Space.NEW 0 =
      some (StepRes.cont (100 + kPointerSize)
        (pushWrite {stC9 with source := []} 100 kPointerSize
          (SlotVal.ext (ExtAddr.table 222)))) := by
  exact ((C9_api_reference (readData 1) cfgApi stC9 100 108 Space.NEW 0 1 []
    rfl rfl).1 [111, 222] rfl).1 222 rfl

theorem getInt_hot {st : DState} {n : Nat} {st2 : DState}
    (h : getInt st = some (n, st2)) : st2.hotObjects = st.hotObjects := by
  unfold getInt at h
  split at h
  · simp only [Option.some.injEq, Prod.mk.injEq] at h
    obtain ⟨h1, h2⟩ := h
    rw [← h2]
  · cases h

theorem backRefLookup_hot {cfg : Cfg} {st : DState} {sp : Space} {o : Nat}
    {st2 : DState} (h : backRefLookup cfg st sp = some (o, st2)) :
    st2.hotObjects = st.hotObjects := by
  unfold backRefLookup at h
  cases sp <;> dsimp only at h <;> repeat' split at h
  all_goals (try exact Option.noConfusion h)
  all_goals
    simp only [Option.map_eq_some', Prod.mk.injEq] at h
  all_goals
    obtain ⟨a, ha, hao, hst⟩ := h
  all_goals subst hst
  all_goals solve_by_elim [getInt_hot, Eq.trans]

/-- C5: the weak flag is one-shot.  A reference write via ReadDataCase consumes
the flag on entry (the slot is written weak exactly when the flag was set) and
every successful ReadDataCase leaves the flag cleared, so the next reference is
written strong; the weak-prefix opcode sets the flag (fatal if already set);
decoding the concrete fragment [weak-prefix][new-object][new-object] writes the
first slot weak and the second strong. -/
theorem C5_weak_one_shot :
    (∀ (rd : RD) (cfg : Cfg) (st : DState) (w : RefWhere) (c host : Nat)
       (wbn : Bool) (p : Nat × DState),
       readDataCase rd cfg st w c host wbn = some p →
         p.2.nextRefWeak = false ∧
         ∃ obj, readSlot p.2.writes c =
           some (if st.nextRefWeak then SlotVal.weakRef obj else SlotVal.strongRef obj))
    ∧ (∀ (rd : RD) (cfg : Cfg) (st : DState) (c l : Nat) (sp : Space) (host : Nat)
         (r : List Item),
         st.source = Item.op Opc.weakPrefixOp :: r →
         st.nextRefWeak = false →
         readStep rd cfg st c l sp host =
           some (StepRes.cont c {st with source := r, nextRefWeak := true}))
    ∧ ((readData 12 cfg0 stC5 100 116 Space.NEW 0).map fun res =>
         (res.1, res.2.1, readSlot res.2.2.writes 100, readSlot res.2.2.writes 108)) =
        some (true, 116, some (SlotVal.weakRef 4096), some (SlotVal.strongRef 4104)) := by
  refine ⟨?_, ?_, ?_⟩
  · intro rd cfg st w c host wbn p h
    unfold readDataCase at h
    dsimp only at h
    split at h
    · cases h
    · rename_i obj emit st1 hres
      split at h
      · cases h
      · rename_i stc hcopy
        simp only [Option.some.injEq] at h
        subst h
        unfold unalignedCopy at hcopy
        split at hcopy
        · cases hcopy
        · rename_i hwk
          simp only [Bool.not_eq_true] at hwk
          simp only [Option.some.injEq] at hcopy
          subst hcopy
          constructor
          · dsimp only
            split
            · exact hwk
            · exact hwk
          · refine ⟨obj, ?_⟩
            dsimp only
            split
            · rw [show (pushBarrier (pushWrite st1 c kPointerSize
                  (if st.nextRefWeak = true then SlotVal.weakRef obj
                   else SlotVal.strongRef obj)) host c).writes =
                  (pushWrite st1 c kPointerSize
                  (if st.nextRefWeak = true then SlotVal.weakRef obj
                   else SlotVal.strongRef obj)).writes from rfl]
              rw [pushWrite_writes]
              exact readSlot_cons_eq
            · rw [pushWrite_writes]
              exact readSlot_cons_eq
  · intro rd cfg st c l sp host r hsrc hwk
    unfold readStep getOpcode
    rw [hsrc]
    dsimp only
    rw [if_neg (by simp [hwk])]
  · rfl

/-- Witness for C5: the weak-prefix step on a concrete state sets the flag. -/
theorem C5_weak_one_shot_witness :
    readStep (readData 1) cfg0 stW5 100 108 Space.NEW 0 =
      some (StepRes.cont 100 {stW5 with source := [], nextRefWeak := true}) :=
  C5_weak_one_shot.2.1 (readData 1) cfg0 stW5 100 108 Space.NEW 0 [] rfl rfl

/-- C4: the hot-object cache is a fixed-capacity-8 FIFO ring indexed 0 =
newest: every resolved back-reference is pushed (GetBackReferencedObject),
every root-table lookup is pushed (the kRootArray resolution), the ring never
exceeds 8 entries with index 0 resolving to the newest entry, and after
materializing the 9 distinct objects 1..9 a hot-object index 0 resolves to 9
(the most recent), not 1, the ring holding exactly 8 entries. -/
theorem C4_hot_cache :
    (∀ (cfg : Cfg) (st : DState) (sp : Space) (o : Nat) (st2 : DState),
       getBackReferencedObject cfg st sp = some (o, st2) →
         st2.hotObjects = hotAdd o st.hotObjects)
    ∧ (∀ (rd : RD) (cfg : Cfg) (st : DState) (q : Nat × Bool × DState),
       resolveRef rd cfg st RefWhere.rootArray = some q →
         q.2.2.hotObjects = hotAdd q.1 st.hotObjects)
    ∧ (∀ (l : List Nat) (o : Nat),
        (hotAdd o l).length ≤ kNumberOfHotObjects ∧ hotGet (hotAdd o l) 0 = some o)
    ∧ (hotGet ([1, 2, 3, 4, 5, 6, 7, 8, 9].foldl (fun acc x => hotAdd x acc) []) 0 =
          some 9
        ∧ hotGet ([1, 2, 3, 4, 5, 6, 7, 8, 9].foldl (fun acc x => hotAdd x acc) []) 0 ≠
          some 1
        ∧ ([1, 2, 3, 4, 5, 6, 7, 8, 9].foldl (fun acc x => hotAdd x acc) []).length =
          kNumberOfHotObjects) := by
  refine ⟨?_, ?_, ?_, by decide⟩
  · intro cfg st sp o st2 h
    unfold getBackReferencedObject at h
    split at h
    · cases h
    · rename_i o0 st1 hraw
      dsimp only at h
      simp only [Option.some.injEq, Prod.mk.injEq] at h
      obtain ⟨ho, hst⟩ := h
      subst ho
      subst hst
      dsimp only
      rw [backRefLookup_hot hraw]
  · intro rd cfg st q h
    unfold resolveRef at h
    dsimp only at h
    split at h
    · rename_i id st1 hgi
      split at h
      · rename_i root hget
        simp only [Option.some.injEq] at h
        subst h
        dsimp only
        rw [getInt_hot hgi]
      · cases h
    · cases h
  · intro l o
    constructor
    · unfold hotAdd kNumberOfHotObjects
      simp [List.length_take]
    · rfl

/-- Witness for C4: the concrete back-reference resolution of the young object
at 500 pushes it onto the hot ring. -/
theorem C4_hot_cache_witness :
    stW4out.hotObjects = hotAdd 500 stW4in.hotObjects :=
  C4_hot_cache.1 cfg0 stW4in Space.NEW 500 stW4out rfl

/-- C7: a repeat materializes exactly one reference via a nested decode and
writes that same reference into repeat_count consecutive slots; a count below
2 is fatal (CHECK_LE(2, repeat_count)); the compact fixed-repeat encoding 3
denotes count 5, and the concrete stream [fixed-repeat(5)][new-object] yields
5 consecutive destination slots all holding the one materialized reference. -/
theorem C7_repeat_semantics :
    (∀ (rd : RD) (cfg : Cfg) (st : DState) (c count : Nat),
       count < 2 → readRepeatedObject rd cfg st c count = none)
    ∧ (∀ (rd : RD) (cfg : Cfg) (st : DState) (c count : Nat) (p : Nat × DState),
       readRepeatedObject rd cfg st c count = some p →
         p.1 = c + kPointerSize * count ∧
         ∃ obj, ∀ i, i < count →
           readSlot p.2.writes (c + kPointerSize * i) = some (SlotVal.strongRef obj))
    ∧ decodeFixedRepeatCount ⟨3, by omega⟩ = 5
    ∧ ((readData 12 cfg0 stC7 300 340 Space.NEW 0).map fun res =>
         (res.1, res.2.1, readSlot res.2.2.writes 300, readSlot res.2.2.writes 308,
          readSlot res.2.2.writes 316, readSlot res.2.2.writes 324,
          readSlot res.2.2.writes 332)) =
        some (true, 340, some (SlotVal.strongRef 4104), some (SlotVal.strongRef 4104),
          some (SlotVal.strongRef 4104), some (SlotVal.strongRef 4104),
          some (SlotVal.strongRef 4104)) := by
  refine ⟨?_, ?_, rfl, rfl⟩
  · intro rd cfg st c count hlt
    unfold readRepeatedObject
    rw [if_pos hlt]
  · intro rd cfg st c count p h
    unfold readRepeatedObject at h
    split at h
    · cases h
    · split at h
      · cases h
      · rename_i obj st1 hro
        split at h
        · cases h
        · split at h
          · cases h
          · simp only [Option.some.injEq] at h
            subst h
            refine ⟨writeRepeated_fst count st1 c obj, obj, ?_⟩
            intro i hi
            exact readSlot_writeRepeated count st1 c obj i hi

/-- Witness for C7: a repeat count of 1 is rejected. -/
theorem C7_repeat_semantics_witness :
    readRepeatedObject (readData 1) cfg0 st0 0 1 = none :=
  C7_repeat_semantics.1 (readData 1) cfg0 st0 0 1 (by omega)

/-- C3: the mandatory second pass.  When the deferred stream names an object by
back-reference and its remaining body decode returns false (a deferred marker
during the deferred pass itself), DeserializeDeferredObjects is fatal -- only
one level of deferral is supported; when the body decode fully succeeds, the
completed object is post-processed and the pass continues. -/
theorem C3_deferred_pass :
    ∀ (fuel : Nat) (cfg : Cfg) (st : DState) (sp : Space) (kind : ObjKind)
      (rest : List Item) (obj : Nat) (st2 : DState) (sz : Nat) (st3 : DState),
      st.source = Item.op (Opc.newObject sp kind) :: rest →
      getBackReferencedObject cfg {st with source := rest} sp = some (obj, st2) →
      getInt st2 = some (sz, st3) →
      (∀ c st4, readData fuel cfg st3 (obj + kPointerSize)
          (obj + (sz <<< kPointerSizeLog2)) sp obj = some (false, c, st4) →
        deserializeDeferredObjects (fuel + 1) cfg st = none)
      ∧ (∀ c st4, readData fuel cfg st3 (obj + kPointerSize)
          (obj + (sz <<< kPointerSizeLog2)) sp obj = some (true, c, st4) →
        deserializeDeferredObjects (fuel + 1) cfg st =
          deserializeDeferredObjects fuel cfg (postProcessNewObject cfg st4 obj sp).2) := by
  intro fuel cfg st sp kind rest obj st2 sz st3 hsrc hback hgi
  constructor
  · intro c st4 hrd
    rw [deserializeDeferredObjects]
    unfold getOpcode
    rw [hsrc]
    dsimp only
    rw [hback]
    dsimp only
    rw [hgi]
    dsimp only
    rw [hrd]
  · intro c st4 hrd
    rw [deserializeDeferredObjects]
    unfold getOpcode
    rw [hsrc]
    dsimp only
    rw [hback]
    dsimp only
    rw [hgi]
    dsimp only
    rw [hrd]

/-- Witness for C3: the concrete deferred object at 1000 is completed by the
second pass and handed to post-processing. -/
theorem C3_deferred_pass_witness :
    deserializeDeferredObjects 3 cfg0 stC3 =
      deserializeDeferredObjects 2 cfg0
        (postProcessNewObject cfg0 stC3d 1000 Space.OLD).2 :=
  (C3_deferred_pass 2 cfg0 stC3 Space.OLD ObjKind.other
    [Item.int 0, Item.int 0, Item.int 2, Item.op (Opc.fixedRawData ⟨0, by omega⟩),
     Item.raw raw8, Item.op Opc.synchronize]
    1000 stC3b 2 stC3c rfl rfl rfl).2 1016 stC3d rfl

theorem stringLookup_append {tbl : List (List Nat × Nat)} {ct : List Nat}
    (a : Nat) (h : stringLookup tbl ct = none) :
    stringLookup (tbl ++ [(ct, a)]) ct = some a := by
  induction tbl with
  | nil =>
    rw [List.nil_append]
    simp [stringLookup]
  | cons p r ih =>
    obtain ⟨ct2, a2⟩ := p
    unfold stringLookup at h
    split at h
    · cases h
    · rename_i hne
      rw [List.cons_append]
      simp only [stringLookup]
      rw [if_neg hne]
      exact ih h

/-- C6: string canonicalization under user-code (non-foundational) decoding,
for every pair of equal-content internalized entries and every further
back-reference to the duplicate.  PostProcessNewObject on any internalized
string whose content misses the interning table registers it as the new
canonical entry and returns the object itself; on any hit it marks the object
as forwarding to the canonical instance and returns the canonical instance.
An equal-content lookup always finds a freshly registered entry, so the second
of any two equal-content entries is forwarded to the first.  Every
back-reference whose raw resolution lands on a forwarded (thin) duplicate is
transparently substituted with the canonical target.  The concrete two-entry
stream with content [7, 7] exhibits the whole scenario end to end: all three
written slots (both entries and a back-reference to the duplicate) resolve to
the first, canonical object. -/
theorem C6_string_canonicalization :
    (∀ (cfg : Cfg) (st : DState) (addr : Nat) (sp : Space) (ct : List Nat)
       (hf : Nat) (th : Option Nat) (s0 : Space),
       cfg.userCode = true →
       lookupHeap (ppHashClear cfg st addr) addr =
         some ⟨ObjKind.str ct true hf th, s0⟩ →
       (stringLookup (ppHashClear cfg st addr).stringTable ct = none →
          postProcessNewObject cfg st addr sp =
            (addr, {ppHashClear cfg st addr with
                      stringTable :=
                        (ppHashClear cfg st addr).stringTable ++ [(ct, addr)],
                      newInternalizedStrings :=
                        (ppHashClear cfg st addr).newInternalizedStrings ++ [addr]}))
       ∧ (∀ canonical,
            stringLookup (ppHashClear cfg st addr).stringTable ct = some canonical →
            postProcessNewObject cfg st addr sp =
              (canonical, setHeapKind (ppHashClear cfg st addr) addr
                (ObjKind.str ct true hf (some canonical)))))
    ∧ (∀ (tbl : List (List Nat × Nat)) (ct : List Nat) (a : Nat),
         stringLookup tbl ct = none → stringLookup (tbl ++ [(ct, a)]) ct = some a)
    ∧ (∀ (cfg : Cfg) (st : DState) (sp : Space) (o0 : Nat) (st1 : DState)
         (ct : List Nat) (intern : Bool) (hf : Nat) (act : Nat) (s0 : Space),
         cfg.userCode = true →
         backRefLookup cfg st sp = some (o0, st1) →
         lookupHeap st1 o0 = some ⟨ObjKind.str ct intern hf (some act), s0⟩ →
         getBackReferencedObject cfg st sp =
           some (act, {st1 with hotObjects := hotAdd act st1.hotObjects}))
    ∧ (((readData 12 cfgU stC6 200 224 Space.NEW 0).map fun res =>
         (res.1, res.2.1, readSlot res.2.2.writes 200, readSlot res.2.2.writes 208,
          readSlot res.2.2.writes 216, lookupHeap res.2.2 4104, lookupHeap res.2.2 4096)) =
        some (true, 224, some (SlotVal.strongRef 4096), some (SlotVal.strongRef 4096),
          some (SlotVal.strongRef 4096),
          some ⟨ObjKind.str [7, 7] true kEmptyHashField (some 4096), Space.OLD⟩,
          some ⟨ObjKind.str [7, 7] true kEmptyHashField none, Space.OLD⟩)
        ∧ (4096 : Nat) ≠ 4104) := by
  refine ⟨?_, fun tbl ct a h => stringLookup_append a h, ?_, rfl, by decide⟩
  · intro cfg st addr sp ct hf th s0 hu hlook
    constructor
    · intro hmiss
      unfold postProcessNewObject
      try dsimp only
      rw [hu]
      rw [if_pos rfl]
      rw [hlook]
      try dsimp only
      rw [hmiss]
    · intro canonical hhit
      unfold postProcessNewObject
      try dsimp only
      rw [hu]
      rw [if_pos rfl]
      rw [hlook]
      try dsimp only
      rw [hhit]
  · intro cfg st sp o0 st1 ct intern hf act s0 hu hraw hthin
    unfold getBackReferencedObject
    rw [hraw]
    try dsimp only
    rw [hu]
    rw [if_pos rfl]
    rw [hthin]

/-- Witness for C6: the concrete back-reference to the forwarded duplicate at
4104 is substituted with its canonical target 4096 and 4096 is pushed onto the
hot ring. -/
theorem C6_string_canonicalization_witness :
    getBackReferencedObject cfgU stW6in Space.OLD =
      some (4096, {stW6in with source := [],
                                hotObjects := hotAdd 4096 stW6in.hotObjects}) := by
  have h := C6_string_canonicalization.2.2.1 cfgU stW6in Space.OLD 4104
    {stW6in with source := []} [7, 7] true kEmptyHashField 4096 Space.OLD
    rfl rfl rfl
  exact h

/-- C2 counterexample: a span whose host lives in the executable-code space --
a non-null, non-transient destination -- writes a back-reference to a young
object (at 500) and records no generational barrier, because
write_barrier_needed also excludes CODE_SPACE, which the claim omits.  The
identical decode with an old-space host does record the barrier. -/
theorem C2_write_barrier_counterexample :
    ((readData 3 cfg0 stC2 700 708 Space.CODE 600).map fun res =>
      (res.1, readSlot res.2.2.writes 700, isYoung res.2.2 500, res.2.2.barriers)) =
      some (true, some (SlotVal.strongRef 500), true, [])
    ∧ ((readData 3 cfg0 stC2 700 708 Space.OLD 600).map fun res =>
      (res.1, res.2.2.barriers)) = some (true, [(600, 700)])
    ∧ (600 : Nat) ≠ 0 := by
  exact ⟨rfl, rfl, by decide⟩

/-- C2 amended: the generational-barrier rule with the executable-code
exception.  write_barrier_needed holds exactly for a non-null host whose span
space is neither transient (young) nor executable-code; a reference write via
ReadDataCase records a barrier for its slot exactly when the resolved
reference's emit flag and write_barrier_needed both hold (so no barrier is
recorded for that slot when the host is null or the span space is young or
code); the emit flag is the new-space test of the operand space for new-object
and back-reference opcodes, the actual young-generation test for root-array,
partial-snapshot-cache and attached-reference lookups, and always false for
the read-only-object cache; the hot-object opcode follows the same rule with
the young-generation test of the cached object. -/
theorem C2_write_barrier_amended :
    (∀ (host : Nat) (sp : Space),
       writeBarrierNeeded host sp = true ↔
         host ≠ 0 ∧ sp ≠ Space.NEW ∧ sp ≠ Space.CODE)
    ∧ (∀ (rd : RD) (cfg : Cfg) (st : DState) (w : RefWhere) (c host : Nat)
         (wbn : Bool) (p : Nat × DState),
         readDataCase rd cfg st w c host wbn = some p →
           ∃ obj emit stMid,
             resolveRef rd cfg {st with nextRefWeak := false} w =
               some (obj, emit, stMid) ∧
             readSlot p.2.writes c =
               some (if st.nextRefWeak then SlotVal.weakRef obj
                     else SlotVal.strongRef obj) ∧
             p.2.barriers =
               (if emit && wbn then (host, c) :: stMid.barriers else stMid.barriers))
    ∧ (∀ (rd : RD) (cfg : Cfg) (st : DState) (sp : Space) (q : Nat × Bool × DState),
         resolveRef rd cfg st (RefWhere.backref sp) = some q →
           q.2.1 = (sp == Space.NEW))
    ∧ (∀ (rd : RD) (cfg : Cfg) (st : DState) (sp : Space) (kind : ObjKind)
         (q : Nat × Bool × DState),
         resolveRef rd cfg st (RefWhere.newObject sp kind) = some q →
           q.2.1 = (sp == Space.NEW))
    ∧ (∀ (rd : RD) (cfg : Cfg) (st : DState) (q : Nat × Bool × DState),
         resolveRef rd cfg st RefWhere.rootArray = some q →
           q.2.1 = isYoung q.2.2 q.1)
    ∧ (∀ (rd : RD) (cfg : Cfg) (st : DState) (q : Nat × Bool × DState),
         resolveRef rd cfg st RefWhere.readOnlyObjectCache = some q →
           q.2.1 = false)
    ∧ (∀ (rd : RD) (cfg : Cfg) (st : DState) (c l : Nat) (sp : Space) (host : Nat)
         (idx : Fin 8) (r : List Item) (hot : Nat),
         st.source = Item.op (Opc.hotObject idx) :: r →
         st.nextRefWeak = false →
         hotGet st.hotObjects idx.val = some hot →
         readStep rd cfg st c l sp host =
           some (StepRes.cont (c + kPointerSize)
             (if writeBarrierNeeded host sp && isYoung {st with source := r} hot
              then pushBarrier (pushWrite {st with source := r, nextRefWeak := false}
                     c kPointerSize (SlotVal.strongRef hot)) host c
              else pushWrite {st with source := r, nextRefWeak := false}
                     c kPointerSize (SlotVal.strongRef hot)))) := by
  refine ⟨?_, ?_, ?_, ?_, ?_, ?_, ?_⟩
  · intro host sp
    unfold writeBarrierNeeded
    constructor
    · intro h
      simp only [Bool.and_eq_true, bne_iff_ne, ne_eq] at h
      exact ⟨h.1.1, h.1.2, h.2⟩
    · intro ⟨h1, h2, h3⟩
      simp only [Bool.and_eq_true, bne_iff_ne, ne_eq]
      exact ⟨⟨h1, h2⟩, h3⟩
  · intro rd cfg st w c host wbn p h
    unfold readDataCase at h
    dsimp only at h
    split at h
    · cases h
    · rename_i obj emit st1 hres
      split at h
      · cases h
      · rename_i stc hcopy
        simp only [Option.some.injEq] at h
        subst h
        refine ⟨obj, emit, st1, hres, ?_, ?_⟩
        · unfold unalignedCopy at hcopy
          split at hcopy
          · cases hcopy
          · simp only [Option.some.injEq] at hcopy
            subst hcopy
            dsimp only
            split
            · rw [show (pushBarrier (pushWrite st1 c kPointerSize
                  (if st.nextRefWeak = true then SlotVal.weakRef obj
                   else SlotVal.strongRef obj)) host c).writes =
                  (pushWrite st1 c kPointerSize
                  (if st.nextRefWeak = true then SlotVal.weakRef obj
                   else SlotVal.strongRef obj)).writes from rfl]
              rw [pushWrite_writes]
              exact readSlot_cons_eq
            · rw [pushWrite_writes]
              exact readSlot_cons_eq
        · unfold unalignedCopy at hcopy
          split at hcopy
          · cases hcopy
          · simp only [Option.some.injEq] at hcopy
            subst hcopy
            dsimp only
            split
            · rfl
            · rfl
  · intro rd cfg st sp q h
    unfold resolveRef at h
    dsimp only at h
    simp only [Option.map_eq_some'] at h
    obtain ⟨pp, hp, he⟩ := h
    subst he
    rfl
  · intro rd cfg st sp kind q h
    unfold resolveRef at h
    dsimp only at h
    simp only [Option.map_eq_some'] at h
    obtain ⟨pp, hp, he⟩ := h
    subst he
    rfl
  · intro rd cfg st q h
    unfold resolveRef at h
    dsimp only at h
    split at h
    · split at h
      · simp only [Option.some.injEq] at h
        subst h
        rfl
      · cases h
    · cases h
  · intro rd cfg st q h
    unfold resolveRef at h
    dsimp only at h
    split at h
    · split at h
      · split at h
        · cases h
        · simp only [Option.some.injEq] at h
          subst h
          rfl
      · cases h
    · cases h
  · intro rd cfg st c l sp host idx r hot hsrc hwk hget
    unfold readStep getOpcode
    rw [hsrc]
    try dsimp only
    rw [hget]
    try dsimp only
    unfold unalignedCopy
    try dsimp only
    rw [hwk]
    try dsimp only
    rfl

/-- Witness for C2 amended: the read-only-cache resolution of the non-young
object 42 with write_barrier_needed false writes the slot and records no
barrier; the slot is observably written. -/
theorem C2_write_barrier_amended_witness :
    (readSlot (pushWrite {stW2in with source := []} 100 kPointerSize
      (SlotVal.strongRef 42)).writes 100).isSome = true := by
  obtain ⟨obj, emit, stMid, h1, h2, h3⟩ :=
    C2_write_barrier_amended.2.1 (readData 1) cfgW2 stW2in
      RefWhere.readOnlyObjectCache 100 0 false
      (100 + kPointerSize,
        pushWrite {stW2in with source := []} 100 kPointerSize (SlotVal.strongRef 42))
      rfl
  rw [h2]
  rfl

theorem assocFind_setKindA : ∀ (l : List (Nat × HeapObj)) (a : Nat)
    (kd : ObjKind) (h : HeapObj), assocFind l a = some h →
    assocFind (setKindA l a kd) a = some {h with kind := kd} := by
  intro l a kd
  induction l with
  | nil => intro h hh; cases hh
  | cons p r ih =>
    intro h hh
    obtain ⟨k, v⟩ := p
    unfold assocFind at hh
    unfold setKindA
    by_cases hk : k = a
    · rw [if_pos hk] at hh ⊢
      simp only [Option.some.injEq] at hh
      subst hh
      unfold assocFind
      rw [if_pos hk]
    · rw [if_neg hk] at hh ⊢
      unfold assocFind
      rw [if_neg hk]
      exact ih h hh

/-- C8 counterexample: with rehashing off (flag or capability) and
non-user-code decoding, post-processing leaves the string's stale cached hash
42 in place -- the hash clear is not applied "regardless of decode mode". -/
theorem C8_hash_clear_counterexample :
    lookupHeap (postProcessNewObject cfg0 stC8 64 Space.OLD).2 64 =
      some ⟨ObjKind.str [1] false 42 none, Space.OLD⟩
    ∧ (42 : Nat) ≠ kEmptyHashField := by
  exact ⟨rfl, by decide⟩

/-- C8 amended: when rehashing is enabled (FLAG_rehash_snapshot and can_rehash)
or user code is being deserialized, post-processing resets every string's
cached hash field to the empty sentinel so the hash is recomputed lazily;
content, internalized flag and space are preserved (the forwarding marker may
additionally be set by canonicalization). -/
theorem C8_hash_clear_amended :
    ∀ (cfg : Cfg) (st : DState) (addr : Nat) (sp : Space) (ct : List Nat)
      (intern : Bool) (hf : Nat) (th : Option Nat) (s0 : Space),
      ((cfg.flagRehashSnapshot && cfg.canRehash) || cfg.userCode) = true →
      lookupHeap st addr = some ⟨ObjKind.str ct intern hf th, s0⟩ →
      ∃ th2, lookupHeap (postProcessNewObject cfg st addr sp).2 addr =
        some ⟨ObjKind.str ct intern kEmptyHashField th2, s0⟩ := by
  intro cfg st addr sp ct intern hf th s0 hcond hlook
  have hst1 : lookupHeap (ppHashClear cfg st addr) addr =
      some ⟨ObjKind.str ct intern kEmptyHashField th, s0⟩ := by
    unfold ppHashClear
    rw [hcond]
    rw [if_pos rfl]
    rw [hlook]
    try dsimp only
    unfold lookupHeap setHeapKind
    exact assocFind_setKindA st.heap addr _ _ hlook
  cases hu : cfg.userCode
  case false =>
    unfold postProcessNewObject
    try dsimp only
    rw [hu]
    rw [if_neg (by decide)]
    try dsimp only
    rw [hst1]
    try dsimp only
    exact ⟨th, hst1⟩
  case true =>
    unfold postProcessNewObject
    try dsimp only
    rw [hu]
    rw [if_pos rfl]
    rw [hst1]
    cases intern
    case false =>
      try dsimp only
      exact ⟨th, hst1⟩
    case true =>
      try dsimp only
      cases hsl : stringLookup (ppHashClear cfg st addr).stringTable ct
      case none =>
        try dsimp only
        exact ⟨th, hst1⟩
      case some canonical =>
        try dsimp only
        refine ⟨some canonical, ?_⟩
        unfold lookupHeap setHeapKind
        exact assocFind_setKindA _ addr _ _ hst1

/-- Witness for C8 amended: with rehashing enabled, the stale hash 42 of the
string at 64 is cleared; the object remains present. -/
theorem C8_hash_clear_amended_witness :
    (lookupHeap (postProcessNewObject cfgR stC8 64 Space.OLD).2 64).isSome = true := by
  obtain ⟨th2, hh⟩ := C8_hash_clear_amended cfgR stC8 64 Space.OLD [1] false 42
    none Space.OLD (by decide) rfl
  rw [hh]
  rfl

end V8
